import Mathlib

/-!
A shallow embedding of the cambriamerge backend (`src/cambriamerge.ts`): the
op↔patch translator, path/id resolver, op sorter, bootstrap, and the
history-replaying engine, together with proofs of the specification claims.

The external `automerge` backend and the `cambria` lens library are consumed
through narrow interfaces; they are modelled as abstract operation records
(`AMBackend`, `LensLib`) over a concrete introspectable state, mirroring how
the TypeScript code treats them as opaque except for the documented
introspection paths (`opSet.byObject[id]._init.action`, `_keys[key][0].value`,
`_elemIds`, `_inbound`).

JavaScript numbers that the code manipulates (seq, elem, indices) are modelled
as `Int`; JSON values as the inductive `JsonValue`; `undefined`-able fields as
`Option`; thrown exceptions as `Except String`.
-/

namespace Cambriamerge

mutual

/-- JSON values as they appear in patch ops and automerge op values
(mutual with their array/object payloads so equality stays decidable). -/
inductive JsonValue : Type
  | vnull : JsonValue
  | vstr : String → JsonValue
  | vnum : Int → JsonValue
  | vbool : Bool → JsonValue
  | varr : JsonArr → JsonValue
  | vobj : JsonFields → JsonValue
  deriving DecidableEq, Repr

inductive JsonArr : Type
  | anil : JsonArr
  | acons : JsonValue → JsonArr → JsonArr
  deriving DecidableEq, Repr

inductive JsonFields : Type
  | fnil : JsonFields
  | fcons : String → JsonValue → JsonFields → JsonFields
  deriving DecidableEq, Repr

end

/-- `value === null || ['string','number','boolean'].includes(typeof value)`. -/
def JsonValue.isScalarOrNull : JsonValue → Bool
  | .vnull => true
  | .vstr _ => true
  | .vnum _ => true
  | .vbool _ => true
  | _ => false

/-- Values the op classifier maps to a container `make*`/`link`: any array
(`Array.isArray`) and the empty object. -/
def JsonValue.isContainer : JsonValue → Bool
  | .varr _ => true
  | .vobj .fnil => true
  | _ => false

instance {ε α : Type} [DecidableEq ε] [DecidableEq α] :
    DecidableEq (Except ε α) := fun a b =>
  match a, b with
  | .ok x, .ok y =>
    if h : x = y then .isTrue (congrArg Except.ok h)
    else .isFalse (fun hh => h (Except.ok.inj hh))
  | .error x, .error y =>
    if h : x = y then .isTrue (congrArg Except.error h)
    else .isFalse (fun hh => h (Except.error.inj hh))
  | .ok _, .error _ => .isFalse (fun hh => Except.noConfusion hh)
  | .error _, .ok _ => .isFalse (fun hh => Except.noConfusion hh)

/-! ### Association-list helpers (JS plain objects / Immutable maps) -/

/-- Lookup in a JS-object-style association list (`o[k]`, absent = undefined). -/
def assocLookup {α : Type} : List (String × α) → String → Option α
  | [], _ => none
  | (k, v) :: rest, key => if k = key then some v else assocLookup rest key

/-- JS object update `{...o, [k]: v}` / `o[k] = v`: replace or append the key. -/
def assocInsert {α : Type} (l : List (String × α)) (key : String) (v : α) :
    List (String × α) :=
  if (assocLookup l key).isSome then
    l.map (fun p => if p.1 = key then (key, v) else p)
  else l ++ [(key, v)]

/-- JS `delete o[k]`: remove the key from the object. -/
def assocErase {α : Type} (l : List (String × α)) (key : String) :
    List (String × α) :=
  l.filter (fun p => p.1 ≠ key)

/-! ### JS string and number primitives used by the code -/

/-- Decimal digit to its character. -/
def digitChar (d : Nat) : Char := Char.ofNat (48 + d)

/-- Little-endian decimal digits of `n`, with explicit fuel so the kernel can
evaluate it (fuel `n + 1` always suffices). -/
def natToCharsAux : Nat → Nat → List Char
  | 0, _ => []
  | _ + 1, 0 => []
  | fuel + 1, n => digitChar (n % 10) :: natToCharsAux fuel (n / 10)

/-- Decimal string of a natural number, as JS `String(n)` renders it. -/
def natToString (n : Nat) : String :=
  if n = 0 then "0" else String.mk ((natToCharsAux (n + 1) n).reverse)

/-- JS `String(i)` / template interpolation of a number. -/
def intToString (i : Int) : String :=
  if i < 0 then "-" ++ natToString i.natAbs else natToString i.natAbs

/-- Numeric value of a decimal digit character, `none` for non-digits. -/
def digitVal (c : Char) : Option Nat :=
  if 48 ≤ c.toNat ∧ c.toNat ≤ 57 then some (c.toNat - 48) else none

/-- Fold a decimal-digit prefix into a number, stopping at the first
non-digit (the tail behaviour of JS `parseInt`). -/
def parseDigitsAux : List Char → Nat → Nat
  | [], acc => acc
  | c :: cs, acc =>
    match digitVal c with
    | some d => parseDigitsAux cs (acc * 10 + d)
    | none => acc

/-- Model of JS `parseInt(s, 10)`: an optional sign followed by a decimal
digit prefix; `none` models `NaN`. -/
def parseIntJS (s : String) : Option Int :=
  match s.data with
  | [] => none
  | c :: cs =>
    if c = '-' then
      match cs with
      | [] => none
      | c2 :: cs2 =>
        (digitVal c2).map (fun d => -(parseDigitsAux cs2 d : Int))
    else (digitVal c).map (fun d => (parseDigitsAux cs d : Int))

/-- Character-list core of JS `String.prototype.split` on a single-character
separator. -/
def splitCharList (sep : Char) : List Char → List Char → List (List Char)
  | [], acc => [acc.reverse]
  | c :: cs, acc =>
    if c = sep then acc.reverse :: splitCharList sep cs []
    else splitCharList sep cs (c :: acc)

/-- JS `s.split(sep)` for a single-character separator. -/
def splitOnChar (sep : Char) (s : String) : List String :=
  (splitCharList sep s.data []).map String.mk

/-- Character-list core of JS `Array.prototype.join` with a one-character
separator. -/
def joinCharList (sep : Char) : List (List Char) → List Char
  | [] => []
  | [x] => x
  | x :: xs => x ++ sep :: joinCharList sep xs

/-- JS `parts.join(sep)` for a single-character separator. -/
def joinChar (sep : Char) (parts : List String) : String :=
  String.mk (joinCharList sep (parts.map String.data))

/-- `sep` does not occur in `s`. -/
def sepFree (sep : Char) (s : String) : Prop := sep ∉ s.data

instance (sep : Char) (s : String) : Decidable (sepFree sep s) := by
  unfold sepFree; infer_instance

/-! ### The automerge data model (`Op`, `Change`, `Clock`, patches) -/

abbrev ObjectId := String

/-- `00000000-0000-0000-0000-000000000000`. -/
def ROOT_ID : ObjectId := "00000000-0000-0000-0000-000000000000"

/-- The phantom actor used for the defaults change. -/
def CAMBRIA_MAGIC_ACTOR : String := "0000000000"

/-- UUID namespace used to derive synthetic `make*` object ids. -/
def MAGIC_UUID : String := "f1bb7a0b-2d26-48ca-aaa3-92c63bbb5c50"

/-- Model of the deterministic namespaced-UUID function `v5(name, ns)`:
any injective-enough deterministic derivation works, the code never inspects
the result. -/
def v5 (name : String) (ns : String) : String := ns ++ "/" ++ name

/-- An automerge 0.14 operation. Optional fields are `undefined`-able in the
TypeScript type. -/
structure Op : Type where
  action : String
  obj : Option ObjectId
  key : Option String := none
  elem : Option Int := none
  value : Option JsonValue := none
  deriving DecidableEq, Repr

abbrev Clock := List (String × Int)

/-- An automerge change. -/
structure Change : Type where
  actor : String
  seq : Int
  deps : Clock
  message : String := ""
  ops : List Op
  deriving DecidableEq, Repr

/-- Opaque diff entries: the cambriamerge layer only concatenates and counts
them, never inspects them. -/
structure Diff : Type where
  tag : Nat
  deriving DecidableEq, Repr

/-- An automerge patch `{diffs, clock, deps}`; `clock`/`deps` may be absent. -/
structure AMPatch : Type where
  diffs : List Diff
  clock : Option Clock
  deps : Option Clock
  deriving DecidableEq, Repr

/-! ### Introspectable backend state

The code reads the backend state only through
`state.getIn(['opSet', 'byObject', id, ...])`; we model exactly the record
shape those paths reach. `keys` maps each key to `_keys[key][0].value` (the
first, winning entry); an absent entry models both a missing key and an empty
conflict list. `elemIds` is the ordered element-id sequence; `elemVals` gives
`_elemIds.getValue(elemId).obj`; `inbound` is the first `_inbound` reference
`(obj, key)`. -/
structure ObjRec : Type where
  initAction : String
  keys : List (String × JsonValue) := []
  elemIds : List String := []
  elemVals : List (String × ObjectId) := []
  inbound : Option (ObjectId × String) := none
  deriving DecidableEq, Repr

/-- The opaque automerge backend state, as far as the code introspects it. -/
structure BackendState : Type where
  byObject : List (ObjectId × ObjRec)
  deriving DecidableEq, Repr

/-- The narrow synchronous interface of the automerge backend (§6 of the
spec); the code treats these operations as a black box. -/
structure AMBackend : Type where
  init : BackendState
  applyChanges : BackendState → List Change → BackendState × AMPatch
  applyLocalChange : BackendState → Change → BackendState × AMPatch
  getPatch : BackendState → AMPatch

/-! ### Path/Id resolver -/

inductive ObjectType : Type
  | list : ObjectType
  | object : ObjectType
  deriving DecidableEq, Repr

/-- `getObjType`: the creation action of the object decides its type;
a missing record (`getIn` → undefined) comes out as `object`. -/
def getObjType (state : BackendState) (objId : Option ObjectId) : ObjectType :=
  match objId.bind (assocLookup state.byObject) with
  | some r =>
    if r.initAction = "makeList" ∨ r.initAction = "makeText" then .list
    else .object
  | none => .object

/-- JS `indexOf` on the element-id sequence: first index, `-1` if absent. -/
def jsIndexOf : List String → String → Int
  | [], _ => -1
  | a :: rest, x =>
    if a = x then 0
    else
      let r := jsIndexOf rest x
      if r = -1 then -1 else r + 1

/-- JS `keyOf(index)` on the element-id sequence: the element id at the
index, `none` past the end or for a negative index. -/
def jsKeyOf (l : List String) (i : Int) : Option String :=
  if i < 0 then none else l.get? i.toNat

/-- `findIndexOfElem`: `_head → -1`, otherwise the index of the element id;
throws when the object record is missing (`.indexOf` of undefined). -/
def findIndexOfElem (state : BackendState) (objId : Option ObjectId)
    (insertKey : String) : Except String Int :=
  if insertKey = "_head" then .ok (-1)
  else
    match objId.bind (assocLookup state.byObject) with
    | none => .error "TypeError: _elemIds is undefined"
    | some r => .ok (jsIndexOf r.elemIds insertKey)

/-- `findElemOfIndex`: `-1 → _head`, otherwise the element id at the index;
`none` models the `null` result for a nonexistent index. -/
def findElemOfIndex (state : BackendState) (objId : Option ObjectId)
    (index : Int) : Except String (Option String) :=
  if index = -1 then .ok (some "_head")
  else
    match objId.bind (assocLookup state.byObject) with
    | none => .error "TypeError: _elemIds is undefined"
    | some r => .ok (jsKeyOf r.elemIds index)

/-- `getMapValue`: `_keys[key][0].value`, `none` for undefined. -/
def getMapValue (state : BackendState) (obj : Option ObjectId)
    (key : Option String) : Option JsonValue :=
  (obj.bind (assocLookup state.byObject)).bind fun r =>
    key.bind fun k => assocLookup r.keys k

/-- JS property access coerces the looked-up `_keys` value to an object id;
in well-formed states it is always a `vstr`. -/
def valueAsId : JsonValue → ObjectId
  | .vstr s => s
  | .vnum n => intToString n
  | .vbool b => if b then "true" else "false"
  | .vnull => "null"
  | .varr _ => ""
  | .vobj _ => ""

/-- One step of `getPath`'s inbound walk; `fuel` bounds the chain length
(the JS loop would diverge on a cyclic state). -/
def getPathAux (state : BackendState) : Nat → ObjectId → List String →
    Option (List String)
  | 0, _, _ => none
  | fuel + 1, obj, path =>
    if obj = ROOT_ID then some path
    else
      match (assocLookup state.byObject obj).bind (·.inbound) with
      | none => none
      | some (parent, refKey) =>
        if getObjType state (some parent) = .list then
          match assocLookup state.byObject parent with
          | none => none
          | some pr =>
            let index := jsIndexOf pr.elemIds refKey
            if index < 0 then none
            else getPathAux state fuel parent (intToString index :: path)
        else getPathAux state fuel parent (refKey :: path)

/-- `getPath`: JSON path segments from the root to `obj` by walking the
inbound links; `none` models the `null` result. A `none` object (undefined)
has no inbound record, so the walk fails as in JS. -/
def getPath (state : BackendState) (obj : Option ObjectId) :
    Option (List String) :=
  match obj with
  | none => none
  | some o => getPathAux state (state.byObject.length + 1) o []

/-- The descent loop of `getObjId`. Note the faithful quirk: at a list
segment the JS code returns immediately, ignoring any remaining segments. -/
def getObjIdGo (state : BackendState) : List String → ObjectId →
    Except String (Option ObjectId)
  | [], objectId => .ok (some objectId)
  | seg :: rest, objectId =>
    if getObjType state (some objectId) = .object then
      match assocLookup state.byObject objectId with
      | none => .error "TypeError: objectKeys is undefined"
      | some r =>
        match assocLookup r.keys seg with
        | none => .ok none
        | some v => getObjIdGo state rest (valueAsId v)
    else
      match assocLookup state.byObject objectId with
      | none => .error "TypeError: _elemIds is undefined"
      | some r =>
        let arrayIndex := (parseIntJS seg).getD 0
        match (if (parseIntJS seg).isSome then
                 findElemOfIndex state (some objectId) arrayIndex
               else .ok none) with
        | .error e => .error e
        | .ok elemId =>
          match elemId.bind (assocLookup r.elemVals) with
          | none => .error "TypeError: getValue(elemId) is undefined"
          | some objId => .ok (some objId)

/-- `getObjId`: resolve a JSON path to an object id; `.ok none` models the
`null` result for a path that does not resolve. -/
def getObjId (state : BackendState) (path : String) :
    Except String (Option ObjectId) :=
  if path = "" then .ok (some ROOT_ID)
  else getObjIdGo state ((splitOnChar '/' path).drop 1) ROOT_ID

/-! ### Shadow instances and patch ops -/

/-- A shadow instance: the backend state plus the bookkeeping the wrapper
maintains for one schema. -/
structure Instance : Type where
  clock : Clock
  schema : String
  deps : Clock
  elem : List (String × Int)
  bootstrapped : Bool
  state : BackendState
  deriving DecidableEq, Repr

/-- A cloudina (JSON Patch) operation `{op, path, value?}`. -/
structure PatchOp : Type where
  op : String
  path : String
  value : Option JsonValue := none
  deriving DecidableEq, Repr

/-- Change-scoped cache of array-insert ops keyed by the elem they created. -/
abbrev ElemCache := List (String × Op)

/-- JS truthiness of `op.key && elemCache[op.key]`. -/
def keyInCache (key : Option String) (elemCache : ElemCache) : Bool :=
  match key with
  | some k => k ≠ "" && (assocLookup elemCache k).isSome
  | none => false

/-- `buildPath`: the JSON path of an op's target, resolving a list key
either through the element cache (insert-after anchor, deleting the cache
entry) or through the element-id sequence. Returns the path together with
the updated cache (the JS code mutates `elemCache` in place). A missing
map key renders as the empty segment, as JS `join` renders `undefined`. -/
def buildPath (op : Op) (inst : Instance) (elemCache : ElemCache) :
    Except String (String × ElemCache) :=
  let path := (getPath inst.state op.obj).getD []
  if getObjType inst.state op.obj = .list then
    match op.key with
    | none => .error "expected key on op"
    | some key =>
      match assocLookup elemCache key with
      | some insOp =>
        match insOp.key with
        | none => .error "expected key on insert op"
        | some prevKey =>
          let elemCache' := assocErase elemCache key
          match findIndexOfElem inst.state op.obj prevKey with
          | .error e => .error e
          | .ok idx =>
            -- plus one because we look up the element we insert after
            .ok ("/" ++ joinChar '/' (path ++ [intToString (idx + 1)]), elemCache')
      | none =>
        match findIndexOfElem inst.state op.obj key with
        | .error e => .error e
        | .ok arrayIndex =>
          .ok ("/" ++ joinChar '/' (path ++ [intToString arrayIndex]), elemCache)
  else
    .ok ("/" ++ joinChar '/' (path ++ [op.key.getD ""]), elemCache)

/-- `opToPatch`: one automerge op to a one-element JSON Patch, relative to
the owning shadow instance and the per-change element cache. -/
def opToPatch (op : Op) (inst : Instance) (elemCache : ElemCache) :
    Except String (List PatchOp × ElemCache) :=
  match op.action with
  | "set" =>
    let action :=
      if getObjType inst.state op.obj = .list then
        -- if the elemCache has the key, we are processing an insert
        if keyInCache op.key elemCache then "add" else "replace"
      else
        -- `oldVal === null`: only a stored null matches; an absent key
        -- (undefined) does not
        match getMapValue inst.state op.obj op.key with
        | some .vnull => "add"
        | _ => "replace"
    match buildPath op inst elemCache with
    | .error e => .error e
    | .ok (path, cache') =>
      .ok ([{op := action, path := path, value := op.value}], cache')
  | "del" =>
    match buildPath op inst elemCache with
    | .error e => .error e
    | .ok (path, cache') =>
      .ok ([{op := "remove", path := path}], cache')
  | "link" =>
    let action := if keyInCache op.key elemCache then "add" else "replace"
    match buildPath op inst elemCache with
    | .error e => .error e
    | .ok (path, cache') =>
      -- the empty container type follows the linked object's make action
      let objType := getObjType inst.state (op.value.map valueAsId)
      .ok ([{op := action, path := path,
             value := some (if objType = .list then .varr .anil else .vobj .fnil)}],
           cache')
  | _ => .error "unsupported op"

/-- Final op construction shared by the branches of `patchToOps`:
`[make*,] [ins,] set|link|del`. -/
def patchToOpsFinish (patchop : PatchOp) (makeObj : String) (action : String)
    (objId : Option ObjectId) (key : String) (acc : List Op)
    (pathCache : List (String × ObjectId)) :
    List Op × List (String × ObjectId) :=
  if action = "link" then
    (acc ++ [{action := "link", obj := objId, key := some key,
              value := some (.vstr makeObj)}], pathCache)
  else if patchop.op = "add" ∨ patchop.op = "replace" then
    (acc ++ [{action := action, obj := objId, key := some key,
              value := patchop.value}], pathCache)
  else
    (acc ++ [{action := action, obj := objId, key := some key}], pathCache)

/-- The action/value-shape classification step of `patchToOps` (the
`patchop.op` / `typeof patchop.value` analysis), emitting the synthetic
`make*` and extending the path cache for container values. -/
def patchToOpsAction (makeObj : String) (patchop : PatchOp)
    (pathCache : List (String × ObjectId)) :
    Except String (String × List Op × List (String × ObjectId)) :=
  if patchop.op = "remove" then .ok ("del", [], pathCache)
  else if patchop.op = "add" ∨ patchop.op = "replace" then
    match patchop.value with
    | some .vnull => .ok ("set", [], pathCache)
    | some (.vstr _) => .ok ("set", [], pathCache)
    | some (.vnum _) => .ok ("set", [], pathCache)
    | some (.vbool _) => .ok ("set", [], pathCache)
    | some (.varr _) =>
      .ok ("link", [{action := "makeList", obj := some makeObj}],
           assocInsert pathCache patchop.path makeObj)
    | some (.vobj .fnil) =>
      .ok ("link", [{action := "makeMap", obj := some makeObj}],
           assocInsert pathCache patchop.path makeObj)
    | _ => .error "bad value for patchop"
  else .error "bad op type for patchop"

/-- One patch op of `patchToOps`: classify the value shape (possibly
synthesizing a `make*`), resolve the parent object through the path cache or
the resolver, translate list indices to element ids (synthesizing an `ins`
for `add`, silently dropping a `replace`/`remove` whose index does not
resolve), and emit the ops. In JS `objId` is a string or `null`, never
`undefined`, so the dead `objId === undefined` throw is not modelled. -/
def patchToOpsGo (origin : Change) (opIndex : Nat) (inst : Instance)
    (patchop : PatchOp) (i : Nat) (pathCache : List (String × ObjectId)) :
    Except String (List Op × List (String × ObjectId)) :=
  let makeObj := v5 (origin.actor ++ ":" ++ intToString origin.seq ++ ":" ++
    natToString opIndex ++ ":" ++ natToString i ++ "\"") MAGIC_UUID
  match patchToOpsAction makeObj patchop pathCache with
  | .error e => .error e
  | .ok (action, acc, pathCache') =>
    let pathParts := splitOnChar '/' patchop.path
    let key0 := (pathParts.getLast?).getD ""
    let objPath := joinChar '/' pathParts.dropLast
    let objIdE : Except String (Option ObjectId) :=
      match assocLookup pathCache' objPath with
      | some cached => .ok (some cached)
      | none => getObjId inst.state objPath
    match objIdE with
    | .error e => .error e
    | .ok objId =>
      if getObjType inst.state objId = .list then
        match parseIntJS key0 with
        | none => .error "Expected array index on path"
        | some n =>
          let originalOp := origin.ops.get? opIndex
          if patchop.op = "add" then
            let arrayIndex := n - 1
            match findElemOfIndex inst.state objId arrayIndex with
            | .error e => .error e
            | .ok none => .error "expected to find array element"
            | .ok (some insertAfter) =>
              match originalOp with
              | none => .error "TypeError: originalOp is undefined"
              | some oop =>
                let insertElemId : Option Int :=
                  ((splitOnChar ':' (oop.key.getD "")).get? 1).bind parseIntJS
                let elem : Int :=
                  match insertElemId with
                  | some m =>
                    if m ≠ 0 then m
                    else (assocLookup inst.elem origin.actor).getD 0 + 1
                  | none => (assocLookup inst.elem origin.actor).getD 0 + 1
                let key := origin.actor ++ ":" ++ intToString elem
                .ok (patchToOpsFinish patchop makeObj action objId key
                  (acc ++ [{action := "ins", obj := objId,
                            key := some insertAfter, elem := some elem}])
                  pathCache')
          else
            match findElemOfIndex inst.state objId n with
            | .error e => .error e
            | .ok none => .ok ([], pathCache')
            | .ok (some insertAt) =>
              .ok (patchToOpsFinish patchop makeObj action objId insertAt acc
                pathCache')
      else
        .ok (patchToOpsFinish patchop makeObj action objId key0 acc pathCache')

/-- Fold of `patchToOpsGo` over a patch, threading the path cache. -/
def patchToOpsAll (origin : Change) (opIndex : Nat) (inst : Instance) :
    List PatchOp → Nat → List (String × ObjectId) → Except String (List Op)
  | [], _, _ => .ok []
  | p :: rest, i, cache =>
    match patchToOpsGo origin opIndex inst p i cache with
    | .error e => .error e
    | .ok (ops, cache') =>
      match patchToOpsAll origin opIndex inst rest (i + 1) cache' with
      | .error e => .error e
      | .ok more => .ok (ops ++ more)

/-- `patchToOps`: convert a patch back into automerge ops, with the path
cache seeded with the root. -/
def patchToOps (patch : List PatchOp) (origin : Change) (opIndex : Nat)
    (inst : Instance) : Except String (List Op) :=
  patchToOpsAll origin opIndex inst patch 0 [("", ROOT_ID)]

/-! ### The op sorter

The JS loop iterates `originalOps` with a live array iterator while
`appendOp` splices found ops out of it. We represent the live array as
`pre ++ suf` where the iterator has yielded exactly the elements of `pre`:
after a body in which `d` elements were spliced out of the already-yielded
part, the iterator (whose internal index never adjusts for splices) skips
the first `d` elements of the remaining suffix. -/

/-- JS template interpolation of a possibly-undefined number. -/
def elemTemplate : Option Int → String
  | some e => intToString e
  | none => "undefined"

/-- JS `===` between a string-or-undefined op field and an arbitrary
op value (`o.obj === link.value` and `link.value === make.obj`). -/
def jsStrValEq (s : Option String) (v : Option JsonValue) : Bool :=
  match s, v with
  | some a, some (.vstr b) => a = b
  | none, none => true
  | _, _ => false

/-- `appendOp`'s splice on the split array: remove the first occurrence of
`x`, reporting whether it was taken from the already-yielded part. -/
def spliceSplit (pre suf : List Op) (x : Op) : List Op × List Op × Bool :=
  if x ∈ pre then (pre.erase x, suf, true) else (pre, suf.erase x, false)

/-- The reifier test of the sorter's `ins` branch:
`['set', 'link'].includes(o.action) && o.key === actor:elem`. -/
def reifies (actor : String) (x o : Op) : Bool :=
  (o.action == "set" || o.action == "link") &&
  o.key == some (actor ++ ":" ++ elemTemplate x.elem)

/-- The `op.action === 'ins'` branch of the sorter loop: find the reifying
`set`/`link` (and for a `link` the corresponding `make*`) and append them.
Returns the updated split array, output, and the number of splices that hit
the already-yielded part. -/
def sortStepIns (actor : String) (op : Op) (pre rest sorted : List Op) :
    Except String (List Op × List Op × List Op × Nat) :=
  if op.action = "ins" then
    match (pre ++ rest).find? (reifies actor op) with
    | none => .error "expected to find a reifying op corresponding to ins op"
    | some r =>
      if r.action = "set" then
        let (pre', rest', fromPre) := spliceSplit pre rest r
        .ok (pre', rest', sorted ++ [r], if fromPre then 1 else 0)
      else if r.action = "link" then
        match (pre ++ rest).find? (fun o => jsStrValEq o.obj r.value) with
        | none => .error "expected make op corresponding to link"
        | some m =>
          let (pre1, rest1, d1) := spliceSplit pre rest m
          let (pre2, rest2, d2) := spliceSplit pre1 rest1 r
          .ok (pre2, rest2, sorted ++ [m, r],
               (if d1 then 1 else 0) + (if d2 then 1 else 0))
      else .ok (pre, rest, sorted, 0)
  else .ok (pre, rest, sorted, 0)

/-- The `make*` branch of the sorter loop: find the corresponding `link`
and append it. -/
def sortStepMake (op : Op) (pre rest sorted : List Op) :
    Except String (List Op × List Op × List Op × Nat) :=
  if op.action = "makeList" ∨ op.action = "makeMap" ∨
     op.action = "makeTable" ∨ op.action = "makeText" then
    match (pre ++ rest).find? (fun o =>
        o.action == "link" && jsStrValEq op.obj o.value) with
    | none => .error "expected to find link op corresponding to makeMap"
    | some l =>
      let (pre', rest', fromPre) := spliceSplit pre rest l
      .ok (pre', rest', sorted ++ [l], if fromPre then 1 else 0)
  else .ok (pre, rest, sorted, 0)

/-- The sorter loop; `fuel ≥ suf.length` always suffices. -/
def sortOpsGo (actor : String) : Nat → List Op → List Op → List Op →
    Except String (List Op)
  | fuel, pre, suf, sorted =>
    match suf with
    | [] => .ok sorted
    | op :: rest =>
      match fuel with
      | 0 => .error "fuel exhausted"
      | fuel + 1 =>
        match sortStepIns actor op (pre ++ [op]) rest (sorted ++ [op]) with
        | .error e => .error e
        | .ok (pre1, rest1, sorted1, d1) =>
          match sortStepMake op pre1 rest1 sorted1 with
          | .error e => .error e
          | .ok (pre2, rest2, sorted2, d2) =>
            sortOpsGo actor fuel pre2 (rest2.drop (d1 + d2)) sorted2

/-- `sortOps`: a change with its op list reordered so that each `ins` is
followed by its reifying op(s). -/
def sortOps (change : Change) : Except String Change :=
  match sortOpsGo change.actor (change.ops.length + 1) [] change.ops [] with
  | .error e => .error e
  | .ok ops => .ok {change with ops := ops}

/-- Canonical op lists (the shape `patchToOps` emits for scalar inserts):
every `ins` is immediately followed by its reifying `set`, and no `make*`
ops occur. -/
def canonicalOps (actor : String) : List Op → Bool
  | [] => true
  | [op] =>
    !(op.action == "ins") &&
    !(op.action == "makeList" || op.action == "makeMap" ||
      op.action == "makeTable" || op.action == "makeText")
  | op :: r :: rest2 =>
    if op.action == "ins" then
      r.action == "set" && reifies actor op r && canonicalOps actor rest2
    else
      !(op.action == "makeList" || op.action == "makeMap" ||
        op.action == "makeTable" || op.action == "makeText") &&
      canonicalOps actor (r :: rest2)

/-! ### The lens library interface and the engine -/

/-- Opaque lens-language operation (consumed only through `LensLib`). -/
structure LensOp : Type where
  tag : Nat
  deriving DecidableEq, Repr

abbrev LensSource := List LensOp

/-- A lens-graph edge registration. `from` and `to` are Lean keywords, hence
`from'`/`to'`. -/
structure RegisteredLens : Type where
  to' : String
  from' : String
  lens : LensSource
  deriving DecidableEq, Repr

/-- Opaque lens graph (consumed only through `LensLib`). -/
structure LensGraph : Type where
  regs : List RegisteredLens := []
  deriving DecidableEq, Repr

/-- Engine-side lens bookkeeping. -/
structure LensState : Type where
  inDoc : List String
  graph : LensGraph
  deriving DecidableEq, Repr

/-- The narrow interface of the external `cambria` lens library. JSON
schemas are JSON values; `lensGraphSchema` may come back undefined, and
`lensFromTo`/`applyLensToPatch` may throw. -/
structure LensLib : Type where
  registerLens : LensGraph → String → String → LensSource → LensGraph
  lensGraphSchema : LensGraph → String → Option JsonValue
  lensFromTo : LensGraph → String → String → Except String LensSource
  applyLensToPatch : LensSource → List PatchOp → Option JsonValue →
    Except String (List PatchOp)

/-- Immutable `Set.add`. -/
def inDocAdd (l : List String) (s : String) : List String :=
  if s ∈ l then l else l ++ [s]

/-- The block wrapper around an automerge change. -/
structure CambriaBlock : Type where
  schema : String
  lenses : List RegisteredLens
  change : Change
  actor : String
  seq : Int
  deriving DecidableEq, Repr

/-- `initInstance`: a fresh, unbootstrapped shadow for a schema. -/
def initInstance (B2 : AMBackend) (schema : String) : Instance :=
  { state := B2.init, elem := [], deps := [], schema := schema,
    bootstrapped := false, clock := [] }

/-- `applyChangesToInstance`: fold the per-actor element maximum over the
applied changes, apply them through the backend, and rebuild the instance
record from the resulting patch. -/
def applyChangesToInstance (B2 : AMBackend) (inst : Instance)
    (changes : List Change) : Instance × AMPatch :=
  let elem := changes.foldl (fun acc change =>
    let oldMax := (assocLookup acc change.actor).getD 0
    let maxElem := (change.ops.map (fun op => op.elem.getD 0)).foldl max oldMax
    assocInsert acc change.actor maxElem) inst.elem
  let res := B2.applyChanges inst.state changes
  ({ clock := res.2.clock.getD [], schema := inst.schema, elem := elem,
     bootstrapped := true, deps := res.2.deps.getD [], state := res.1 },
   res.2)

/-- `applyOps`: wrap loose ops in a synthetic change and apply it. -/
def applyOps (B2 : AMBackend) (inst : Instance) (ops : List Op)
    (actor : String := CAMBRIA_MAGIC_ACTOR) : Instance :=
  let change : Change :=
    { ops := ops, message := "", actor := actor,
      seq := (assocLookup inst.clock actor).getD 0 + 1, deps := inst.deps }
  (applyChangesToInstance B2 inst [change]).1

/-- `bootstrap`: the phantom defaults change for an instance's schema. -/
def bootstrap (LL : LensLib) (inst : Instance) (lensState : LensState) :
    Except String Change :=
  let urOp : List PatchOp := [{op := "add", path := "", value := some (.vobj .fnil)}]
  match LL.lensGraphSchema lensState.graph inst.schema with
  | none => .error "Could not find JSON schema for schema"
  | some jsonschema7 =>
    match LL.applyLensToPatch [] urOp (some jsonschema7) with
    | .error e => .error e
    | .ok lensed =>
      let defaultsPatch := lensed.drop 1
      let bootstrapChange : Change :=
        { actor := CAMBRIA_MAGIC_ACTOR, message := "", deps := [], seq := 1,
          ops := [] }
      match patchToOps defaultsPatch bootstrapChange 1 inst with
      | .error e => .error e
      | .ok ops => .ok {bootstrapChange with ops := ops}

/-- `convertOp`: one op through the op→patch→lens→patch→ops pipeline.
Returns the element cache as updated by `opToPatch` (mutated in place in
JS). -/
def convertOp (LL : LensLib) (change : Change) (index : Nat)
    (fromInst toInst : Instance) (lensState : LensState)
    (elemCache : ElemCache) : Except String (List Op × ElemCache) :=
  match change.ops.get? index with
  | none => .error "TypeError: op is undefined"
  | some op =>
    match LL.lensFromTo lensState.graph fromInst.schema toInst.schema with
    | .error e => .error e
    | .ok lensStack =>
      let jsonschema7 := LL.lensGraphSchema lensState.graph fromInst.schema
      match opToPatch op fromInst elemCache with
      | .error e => .error e
      | .ok (patch, elemCache') =>
        match LL.applyLensToPatch lensStack patch jsonschema7 with
        | .error e => .error e
        | .ok convertedPatch =>
          match patchToOps convertedPatch change index toInst with
          | .error e => .error e
          | .ok convertedOps => .ok (convertedOps, elemCache')

/-- The indexed loop of `convertChange` over the sorted ops, incrementally
playing the original op into the from-clone and the converted ops into the
to-clone; `fuel ≥ sortedChange.ops.length - i` always suffices. -/
def convertChangeGo (B2 : AMBackend) (LL : LensLib) (sortedChange : Change)
    (blockActor : String) (lensState : LensState) :
    Nat → Nat → Instance → Instance → ElemCache → List Op →
    Except String (List Op × Instance × Instance)
  | fuel, i, fromClone, toClone, elemCache, acc =>
    match sortedChange.ops.get? i with
    | none => .ok (acc, fromClone, toClone)
    | some op =>
      match fuel with
      | 0 => .error "fuel exhausted"
      | fuel + 1 =>
        if op.action = "ins" then
          let elemCache' := assocInsert elemCache
            (blockActor ++ ":" ++ elemTemplate op.elem) op
          let fromClone' := applyOps B2 fromClone [op] blockActor
          convertChangeGo B2 LL sortedChange blockActor lensState fuel (i + 1)
            fromClone' toClone elemCache' acc
        else if op.action = "makeMap" ∨ op.action = "makeList" ∨
                op.action = "makeText" ∨ op.action = "makeTable" then
          let fromClone' := applyOps B2 fromClone [op] blockActor
          convertChangeGo B2 LL sortedChange blockActor lensState fuel (i + 1)
            fromClone' toClone elemCache acc
        else
          match convertOp LL sortedChange i fromClone toClone lensState
              elemCache with
          | .error e => .error e
          | .ok (convertedOps, elemCache') =>
            let fromClone' := applyOps B2 fromClone [op] blockActor
            let toClone' := applyOps B2 toClone convertedOps blockActor
            convertChangeGo B2 LL sortedChange blockActor lensState fuel (i + 1)
              fromClone' toClone' elemCache' (acc ++ convertedOps)

/-- `convertChange`: sort the ops, then convert them one at a time against
clones of the from/to instances. -/
def convertChange (B2 : AMBackend) (LL : LensLib) (block : CambriaBlock)
    (fromInst toInst : Instance) (lensState : LensState) :
    Except String (Change × Instance × Instance) :=
  match sortOps block.change with
  | .error e => .error e
  | .ok sortedChange =>
    match convertChangeGo B2 LL sortedChange block.change.actor lensState
        (sortedChange.ops.length + 1) 0 fromInst toInst [] [] with
    | .error e => .error e
    | .ok (ops, fromC, toC) =>
      .ok ({ ops := ops, message := block.change.message,
             actor := block.change.actor, seq := block.change.seq,
             deps := block.change.deps }, fromC, toC)

/-- The per-block loop of `applySchemaChanges`, parameterized by the
recursive `applySchemaChanges` call at smaller fuel (`asc`), which
`getInstanceAt` needs for history replay. Carries the loop-persistent
from/to instances. -/
def applySchemaLoop (B2 : AMBackend) (LL : LensLib)
    (asc : List CambriaBlock → Instance → LensState → List CambriaBlock →
      Except String (Instance × AMPatch × LensState))
    (inst : Instance) (history : List CambriaBlock) :
    List CambriaBlock → LensState → Option Instance → Option Instance →
    List Change → Except String (List Change × LensState)
  | [], lensState, _, _, acc => .ok (acc, lensState)
  | block :: rest, lensState, fromI, toI, acc =>
    let lensState := block.lenses.foldl (fun ls lens =>
      { inDoc := inDocAdd ls.inDoc lens.to',
        graph := LL.registerLens ls.graph lens.from' lens.to' lens.lens })
      lensState
    if block.schema = inst.schema then
      applySchemaLoop B2 LL asc inst history rest lensState fromI toI
        (acc ++ [block.change])
    else
      match ((match fromI with
             | some f => .ok f
             | none =>
               match history.findIdx? (fun b =>
                   b.change.actor == block.change.actor &&
                   b.change.seq == block.change.seq) with
               | none => .error "Could not find block with actorId and seq"
               | some blockIndex =>
                 match asc (history.take blockIndex)
                     (initInstance B2 block.schema) lensState history with
                 | .error e => .error e
                 | .ok (f, _, _) => .ok f : Except String Instance)) with
      | .error e => .error e
      | .ok fromInstance =>
        let toBase := toI.getD inst
        match ((if !toBase.bootstrapped then
                 match bootstrap LL toBase lensState with
                 | .error e => .error e
                 | .ok bc =>
                   let t := (applyChangesToInstance B2 toBase [bc]).1
                   .ok {t with bootstrapped := true}
               else .ok toBase : Except String Instance)) with
        | .error e => .error e
        | .ok toInstance =>
          match convertChange B2 LL block fromInstance toInstance lensState with
          | .error e => .error e
          | .ok (newChange, fromI', toI') =>
            applySchemaLoop B2 LL asc inst history rest lensState
              (some fromI') (some toI') (acc ++ [newChange])

/-- `applySchemaChanges`: register embedded lenses, convert blocks whose
schema differs, prepend the bootstrap change for an unbootstrapped
instance, and apply everything; `fuel` bounds the history-replay nesting
depth (one level per recursive `getInstanceAt`). -/
def applySchemaChanges (B2 : AMBackend) (LL : LensLib) :
    Nat → List CambriaBlock → Instance → LensState → List CambriaBlock →
    Except String (Instance × AMPatch × LensState)
  | 0, _, _, _, _ => .error "fuel exhausted"
  | fuel + 1, blocks, inst, lensState, history =>
    match applySchemaLoop B2 LL (applySchemaChanges B2 LL fuel) inst history
        blocks lensState none none [] with
    | .error e => .error e
    | .ok (changesToApply, lensState') =>
      match ((if !inst.bootstrapped then
               match bootstrap LL inst lensState' with
               | .error e => .error e
               | .ok bc => .ok (bc :: changesToApply)
             else .ok changesToApply : Except String (List Change))) with
      | .error e => .error e
      | .ok changes =>
        let (newInstance, patch) := applyChangesToInstance B2 inst changes
        .ok (newInstance, patch, lensState')

/-- `getInstanceAt`: replay the history prefix before `(actorId, seq)` into
an empty shadow of the given schema. -/
def getInstanceAt (B2 : AMBackend) (LL : LensLib) (fuel : Nat)
    (schema actorId : String) (seq : Int) (lensState : LensState)
    (history : List CambriaBlock) : Except String (Instance × LensState) :=
  match history.findIdx? (fun b =>
      b.change.actor == actorId && b.change.seq == seq) with
  | none => .error "Could not find block with actorId and seq"
  | some blockIndex =>
    let blocksToApply := history.take blockIndex
    let empty := initInstance B2 schema
    match applySchemaChanges B2 LL fuel blocksToApply empty lensState history with
    | .error e => .error e
    | .ok (inst, _, newGraph) => .ok (inst, newGraph)

/-- The engine: the primary schema, the block history, the registered
lenses, lens bookkeeping, and the per-schema shadow instances. -/
structure CambriaBackend : Type where
  schema : String
  history : List CambriaBlock
  lenses : List RegisteredLens
  lensState : LensState
  instances : List (String × Instance)
  deriving DecidableEq, Repr

/-- `getInstance`: lazily materialize the shadow for a schema. -/
def CambriaBackend.getInstance (B2 : AMBackend) (doc : CambriaBackend)
    (schema : String) : Instance :=
  (assocLookup doc.instances schema).getD (initInstance B2 schema)

/-- The engine's `applyChanges`: filter superseded blocks, append to
history, convert and apply. -/
def CambriaBackend.applyChanges (B2 : AMBackend) (LL : LensLib) (fuel : Nat)
    (doc : CambriaBackend) (blocks : List CambriaBlock) :
    Except String (CambriaBackend × AMPatch) :=
  let inst := CambriaBackend.getInstance B2 doc doc.schema
  let fBlocks := blocks.filter (fun b =>
    decide (b.seq > (assocLookup inst.clock b.actor).getD 0))
  let history := doc.history ++ fBlocks
  match applySchemaChanges B2 LL fuel fBlocks inst doc.lensState history with
  | .error e => .error e
  | .ok (newInstance, patch, newLensState) =>
    .ok ({ doc with
            history := history,
            instances := assocInsert doc.instances doc.schema newInstance,
            lensState := newLensState }, patch)

/-- The engine's `applyLocalChange`: attach lenses on first publication,
inject the phantom dependency into a first change, bootstrap if needed, and
apply the request locally. The JS code mutates `request.deps` after
building the block, but the block aliases the same change object, so the
returned block carries the injected dependency; we apply the injection
first. -/
def CambriaBackend.applyLocalChange (B2 : AMBackend) (LL : LensLib)
    (doc : CambriaBackend) (request : Change) :
    Except String (CambriaBackend × AMPatch × CambriaBlock) :=
  let lensesAndInDoc :=
    if doc.schema ∈ doc.lensState.inDoc then
      (([] : List RegisteredLens), doc.lensState.inDoc)
    else
      (doc.lenses, doc.lenses.foldl (fun s l => inDocAdd s l.to')
        doc.lensState.inDoc)
  -- first local change always depends on the phantom defaults
  let request := if request.seq = 1 then
      {request with deps := assocInsert request.deps CAMBRIA_MAGIC_ACTOR 1}
    else request
  let block : CambriaBlock :=
    { schema := doc.schema, lenses := lensesAndInDoc.1, change := request,
      actor := request.actor, seq := request.seq }
  let lensState' : LensState :=
    { inDoc := lensesAndInDoc.2, graph := doc.lensState.graph }
  let inst := CambriaBackend.getInstance B2 doc doc.schema
  let history := doc.history ++ [block]
  match ((if !inst.bootstrapped then
           match bootstrap LL inst lensState' with
           | .error e => .error e
           | .ok bc =>
             let (ni, bp) := applyChangesToInstance B2 inst [bc]
             .ok (ni, bp.diffs)
         else .ok (inst, ([] : List Diff)) :
           Except String (Instance × List Diff))) with
  | .error e => .error e
  | .ok (inst, bootdiffs) =>
    let statePatch := B2.applyLocalChange inst.state request
    let inst := { inst with
                   state := statePatch.1,
                   clock := statePatch.2.clock.getD [],
                   deps := statePatch.2.deps.getD [] }
    .ok ({ doc with
            history := history,
            instances := assocInsert doc.instances doc.schema inst,
            lensState := lensState' },
         {statePatch.2 with diffs := bootdiffs ++ statePatch.2.diffs}, block)

/-- The engine's `getPatch`: apply the empty block list (forcing the
bootstrap) and read the full backend patch. -/
def CambriaBackend.getPatch (B2 : AMBackend) (LL : LensLib) (fuel : Nat)
    (doc : CambriaBackend) : Except String (CambriaBackend × AMPatch) :=
  match CambriaBackend.applyChanges B2 LL fuel doc [] with
  | .error e => .error e
  | .ok (doc', _) =>
    .ok (doc', B2.getPatch (CambriaBackend.getInstance B2 doc' doc'.schema).state)

/-- Hide the phantom defaults change: `delete patch.clock[phantom]` and
`delete patch.deps[phantom]` when those maps are present. -/
def hidePhantom (patch : AMPatch) : AMPatch :=
  { patch with
    clock := patch.clock.map (fun c => assocErase c CAMBRIA_MAGIC_ACTOR),
    deps := patch.deps.map (fun c => assocErase c CAMBRIA_MAGIC_ACTOR) }

/-- The exported `applyChanges`: the engine call with the phantom actor
scrubbed from the emitted patch. -/
def applyChanges (B2 : AMBackend) (LL : LensLib) (fuel : Nat)
    (doc : CambriaBackend) (blocks : List CambriaBlock) :
    Except String (CambriaBackend × AMPatch) :=
  match CambriaBackend.applyChanges B2 LL fuel doc blocks with
  | .error e => .error e
  | .ok (doc', patch) => .ok (doc', hidePhantom patch)

/-- The exported `applyLocalChange`, phantom scrubbed. -/
def applyLocalChange (B2 : AMBackend) (LL : LensLib) (doc : CambriaBackend)
    (request : Change) :
    Except String (CambriaBackend × AMPatch × CambriaBlock) :=
  match CambriaBackend.applyLocalChange B2 LL doc request with
  | .error e => .error e
  | .ok (doc', patch, block) => .ok (doc', hidePhantom patch, block)

/-- The exported `getPatch`, phantom scrubbed. -/
def getPatch (B2 : AMBackend) (LL : LensLib) (fuel : Nat)
    (doc : CambriaBackend) : Except String (CambriaBackend × AMPatch) :=
  match CambriaBackend.getPatch B2 LL fuel doc with
  | .error e => .error e
  | .ok (doc', patch) => .ok (doc', hidePhantom patch)

/-! ### Auxiliary lemmas about the association-list helpers -/

theorem assocLookup_cons {α : Type} (a : String) (v : α)
    (rest : List (String × α)) (k : String) :
    assocLookup ((a, v) :: rest) k =
      if a = k then some v else assocLookup rest k := rfl

theorem assocLookup_append {α : Type} (l l' : List (String × α)) (k : String) :
    assocLookup (l ++ l') k =
      match assocLookup l k with
      | some v => some v
      | none => assocLookup l' k := by
  induction l with
  | nil => rfl
  | cons a rest ih =>
    obtain ⟨a1, a2⟩ := a
    by_cases h : a1 = k <;> simp [assocLookup_cons, h, ih]

theorem assocLookup_assocErase {α : Type} (l : List (String × α)) (k : String) :
    assocLookup (assocErase l k) k = none := by
  induction l with
  | nil => rfl
  | cons a rest ih =>
    obtain ⟨a1, a2⟩ := a
    by_cases h : a1 = k
    · simpa [assocErase, h] using ih
    · simpa [assocErase, assocLookup_cons, h] using ih

theorem assocLookup_assocInsert_self {α : Type} (l : List (String × α))
    (k : String) (v : α) : assocLookup (assocInsert l k v) k = some v := by
  unfold assocInsert
  by_cases hs : (assocLookup l k).isSome
  · simp only [hs, if_true]
    induction l with
    | nil => simp [assocLookup] at hs
    | cons a rest ih =>
      obtain ⟨a1, a2⟩ := a
      by_cases h : a1 = k
      · simp [assocLookup_cons, h]
      · simp only [assocLookup_cons, h, if_false] at hs
        simpa [assocLookup_cons, h] using ih hs
  · simp only [hs, if_false]
    induction l with
    | nil => simp [assocLookup]
    | cons a rest ih =>
      obtain ⟨a1, a2⟩ := a
      by_cases h : a1 = k
      · simp [assocLookup_cons, h] at hs
      · simp only [assocLookup_cons, h, if_false] at hs
        simpa [assocLookup_cons, h] using ih hs

theorem assocLookup_map_update_ne {α : Type} (l : List (String × α))
    (k k' : String) (v : α) (hne : k ≠ k') :
    assocLookup (l.map (fun p => if p.1 = k then (k, v) else p)) k' =
      assocLookup l k' := by
  induction l with
  | nil => rfl
  | cons a rest ih =>
    obtain ⟨a1, a2⟩ := a
    by_cases h : a1 = k
    · subst h
      by_cases h' : a1 = k'
      · exact absurd h' hne
      · simp [assocLookup_cons, h', hne, ih]
    · by_cases h' : a1 = k'
      · subst h'
        simp [assocLookup_cons, Ne.symm hne]
      · simp [assocLookup_cons, h, h', ih]

theorem assocLookup_assocInsert_ne {α : Type} (l : List (String × α))
    (k k' : String) (v : α) (hne : k ≠ k') :
    assocLookup (assocInsert l k v) k' = assocLookup l k' := by
  unfold assocInsert
  by_cases hs : (assocLookup l k).isSome
  · rw [if_pos hs]
    exact assocLookup_map_update_ne l k k' v hne
  · rw [if_neg hs, assocLookup_append]
    cases hl : assocLookup l k' with
    | some w => rfl
    | none => simp [assocLookup_cons, hne, assocLookup]

/-- `max`-folds only grow from their base. -/
theorem le_foldl_max (l : List Int) (b : Int) : b ≤ l.foldl max b := by
  induction l generalizing b with
  | nil => exact le_refl b
  | cons a t ih => exact le_trans (le_max_left b a) (ih (max b a))

/-- The per-actor reading of the `elem` fold in `applyChangesToInstance`. -/
theorem elemFold_lookup (A : String) (changes : List Change) :
    ∀ acc : List (String × Int),
    (assocLookup (changes.foldl (fun acc change =>
        let oldMax := (assocLookup acc change.actor).getD 0
        let maxElem :=
          (change.ops.map (fun op => op.elem.getD 0)).foldl max oldMax
        assocInsert acc change.actor maxElem) acc) A).getD 0 =
      (((changes.filter (fun c => c.actor = A)).map
          (fun c => c.ops.map (fun op => op.elem.getD 0))).flatten).foldl max
        ((assocLookup acc A).getD 0) := by
  induction changes with
  | nil => intro acc; rfl
  | cons c rest ih =>
    intro acc
    simp only [List.foldl_cons]
    rw [ih]
    by_cases h : c.actor = A
    · rw [List.filter_cons_of_pos (by simpa using h)]
      simp only [List.map_cons, List.flatten_cons]
      rw [List.foldl_append]
      congr 1
      rw [← h, assocLookup_assocInsert_self]
      simp only [Option.getD_some]
    · rw [List.filter_cons_of_neg (by simpa using h)]
      congr 1
      rw [assocLookup_assocInsert_ne _ _ _ _ h]

/-- C6. Elem monotonicity: `applyChangesToInstance` folds `elem[A]` to the
maximum of the previous value and every `op.elem` (0 when absent) in the
applied changes authored by `A`, and in particular `elem[A]` never
decreases. -/
theorem applyChangesToInstance_elem_spec (B2 : AMBackend) (inst : Instance)
    (changes : List Change) (A : String) :
    (assocLookup (applyChangesToInstance B2 inst changes).1.elem A).getD 0 =
      (((changes.filter (fun c => c.actor = A)).map
          (fun c => c.ops.map (fun op => op.elem.getD 0))).flatten).foldl max
        ((assocLookup inst.elem A).getD 0) ∧
    (assocLookup inst.elem A).getD 0 ≤
      (assocLookup (applyChangesToInstance B2 inst changes).1.elem A).getD 0 := by
  have h := elemFold_lookup A changes inst.elem
  constructor
  · exact h
  · rw [show (applyChangesToInstance B2 inst changes).1.elem =
        changes.foldl (fun acc change =>
          let oldMax := (assocLookup acc change.actor).getD 0
          let maxElem :=
            (change.ops.map (fun op => op.elem.getD 0)).foldl max oldMax
          assocInsert acc change.actor maxElem) inst.elem from rfl, h]
    exact le_foldl_max _ _

/-- C10. Every instance returned by `applyChangesToInstance` (and hence by
`applyOps`) has `bootstrapped = true`, whatever the change list was. -/
theorem applyChangesToInstance_always_bootstrapped (B2 : AMBackend)
    (inst : Instance) (changes : List Change) (ops : List Op)
    (actor : String) :
    (applyChangesToInstance B2 inst changes).1.bootstrapped = true ∧
    (applyOps B2 inst ops actor).bootstrapped = true :=
  ⟨rfl, rfl⟩

/-- A scrubbed patch never resolves the phantom actor in `clock`/`deps`. -/
theorem hidePhantom_phantomFree (p : AMPatch) :
    ((hidePhantom p).clock.bind
        (fun c => assocLookup c CAMBRIA_MAGIC_ACTOR) = none) ∧
    ((hidePhantom p).deps.bind
        (fun c => assocLookup c CAMBRIA_MAGIC_ACTOR) = none) := by
  constructor
  · cases hc : p.clock with
    | none => simp [hidePhantom, hc]
    | some c => simp [hidePhantom, hc, assocLookup_assocErase]
  · cases hc : p.deps with
    | none => simp [hidePhantom, hc]
    | some c => simp [hidePhantom, hc, assocLookup_assocErase]

/-- C2. Phantom invisibility: every patch returned by the exported
`applyChanges`, `applyLocalChange`, and `getPatch` has no entry for the
phantom actor in its clock or deps map. -/
theorem emitted_patches_hide_phantom (B2 : AMBackend) (LL : LensLib)
    (fuel : Nat) (doc : CambriaBackend) (blocks : List CambriaBlock)
    (request : Change) :
    (∀ r, applyChanges B2 LL fuel doc blocks = .ok r →
      r.2.clock.bind (fun c => assocLookup c CAMBRIA_MAGIC_ACTOR) = none ∧
      r.2.deps.bind (fun c => assocLookup c CAMBRIA_MAGIC_ACTOR) = none) ∧
    (∀ r, applyLocalChange B2 LL doc request = .ok r →
      r.2.1.clock.bind (fun c => assocLookup c CAMBRIA_MAGIC_ACTOR) = none ∧
      r.2.1.deps.bind (fun c => assocLookup c CAMBRIA_MAGIC_ACTOR) = none) ∧
    (∀ r, getPatch B2 LL fuel doc = .ok r →
      r.2.clock.bind (fun c => assocLookup c CAMBRIA_MAGIC_ACTOR) = none ∧
      r.2.deps.bind (fun c => assocLookup c CAMBRIA_MAGIC_ACTOR) = none) := by
  refine ⟨?_, ?_, ?_⟩
  · intro r hr
    unfold applyChanges at hr
    cases hinner : CambriaBackend.applyChanges B2 LL fuel doc blocks with
    | error e => rw [hinner] at hr; exact absurd hr (by simp)
    | ok pr =>
      rw [hinner] at hr
      obtain ⟨d', p⟩ := pr
      cases hr
      exact hidePhantom_phantomFree p
  · intro r hr
    unfold applyLocalChange at hr
    cases hinner : CambriaBackend.applyLocalChange B2 LL doc request with
    | error e => rw [hinner] at hr; exact absurd hr (by simp)
    | ok pr =>
      rw [hinner] at hr
      obtain ⟨d', p, b⟩ := pr
      cases hr
      exact hidePhantom_phantomFree p
  · intro r hr
    unfold getPatch at hr
    cases hinner : CambriaBackend.getPatch B2 LL fuel doc with
    | error e => rw [hinner] at hr; exact absurd hr (by simp)
    | ok pr =>
      rw [hinner] at hr
      obtain ⟨d', p⟩ := pr
      cases hr
      exact hidePhantom_phantomFree p

/-! ### Concrete demonstration data for witnesses -/

/-- A trivial backend: applying changes leaves the state alone and reports
a clock naming the phantom actor (so scrubbing is observable). -/
def demoBackend : AMBackend :=
  { init := ⟨[]⟩,
    applyChanges := fun s _ =>
      (s, { diffs := [], clock := some [(CAMBRIA_MAGIC_ACTOR, 1)],
            deps := some [(CAMBRIA_MAGIC_ACTOR, 1)] }),
    applyLocalChange := fun s _ =>
      (s, { diffs := [], clock := some [(CAMBRIA_MAGIC_ACTOR, 1), ("a", 1)],
            deps := none }),
    getPatch := fun _ =>
      { diffs := [], clock := some [(CAMBRIA_MAGIC_ACTOR, 2)], deps := none } }

/-- A trivial lens library: the identity on patches, one universal schema. -/
def demoLensLib : LensLib :=
  { registerLens := fun g _ _ _ => g,
    lensGraphSchema := fun _ _ => some (.vobj .fnil),
    lensFromTo := fun _ _ _ => .ok [],
    applyLensToPatch := fun _ p _ => .ok p }

/-- A fresh engine at schema `S` with no history. -/
def demoDoc : CambriaBackend :=
  { schema := "S", history := [], lenses := [],
    lensState := { inDoc := [], graph := {} }, instances := [] }

/-- A first local change request. -/
def demoRequest : Change :=
  { actor := "a", seq := 1, deps := [], ops := [] }

/-- Witness for C2 at the demonstration engine: all three exported calls
succeed and their patches resolve the phantom actor to nothing. -/
theorem emitted_patches_hide_phantom_witness :
    ((applyChanges demoBackend demoLensLib 1 demoDoc []).map (fun r =>
      (r.2.clock.bind (fun c => assocLookup c CAMBRIA_MAGIC_ACTOR),
       r.2.deps.bind (fun c => assocLookup c CAMBRIA_MAGIC_ACTOR))) =
      .ok (none, none)) ∧
    ((applyLocalChange demoBackend demoLensLib demoDoc demoRequest).map
      (fun r =>
      (r.2.1.clock.bind (fun c => assocLookup c CAMBRIA_MAGIC_ACTOR),
       r.2.1.deps.bind (fun c => assocLookup c CAMBRIA_MAGIC_ACTOR))) =
      .ok (none, none)) ∧
    ((getPatch demoBackend demoLensLib 1 demoDoc).map (fun r =>
      (r.2.clock.bind (fun c => assocLookup c CAMBRIA_MAGIC_ACTOR),
       r.2.deps.bind (fun c => assocLookup c CAMBRIA_MAGIC_ACTOR))) =
      .ok (none, none)) := by
  refine ⟨?_, ?_, ?_⟩
  · cases hr : applyChanges demoBackend demoLensLib 1 demoDoc [] with
    | error e =>
      have hok : (applyChanges demoBackend demoLensLib 1 demoDoc []).isOk
          = true := by decide
      rw [hr] at hok
      exact absurd hok (by simp [Except.isOk, Except.toBool])
    | ok r =>
      have h := (emitted_patches_hide_phantom demoBackend demoLensLib 1
        demoDoc [] demoRequest).1 r hr
      simp [Except.map, h.1, h.2]
  · cases hr : applyLocalChange demoBackend demoLensLib demoDoc demoRequest with
    | error e =>
      have hok : (applyLocalChange demoBackend demoLensLib demoDoc
          demoRequest).isOk = true := by decide
      rw [hr] at hok
      exact absurd hok (by simp [Except.isOk, Except.toBool])
    | ok r =>
      have h := (emitted_patches_hide_phantom demoBackend demoLensLib 1
        demoDoc [] demoRequest).2.1 r hr
      simp [Except.map, h.1, h.2]
  · cases hr : getPatch demoBackend demoLensLib 1 demoDoc with
    | error e =>
      have hok : (getPatch demoBackend demoLensLib 1 demoDoc).isOk
          = true := by decide
      rw [hr] at hok
      exact absurd hok (by simp [Except.isOk, Except.toBool])
    | ok r =>
      have h := (emitted_patches_hide_phantom demoBackend demoLensLib 1
        demoDoc [] demoRequest).2.2 r hr
      simp [Except.map, h.1, h.2]

/-- C9. First-change dependency injection: when `request.seq == 1`,
`applyLocalChange` puts `deps[phantom] = 1` on the change; the returned
block carries that change (it aliases the mutated request object in JS) and
is the block appended to the history. -/
theorem applyLocalChange_seq1_injects_phantom_dep (B2 : AMBackend)
    (LL : LensLib) (doc : CambriaBackend) (request : Change)
    (hseq : request.seq = 1) :
    ∀ r, CambriaBackend.applyLocalChange B2 LL doc request = .ok r →
      r.2.2.change =
        {request with deps := assocInsert request.deps CAMBRIA_MAGIC_ACTOR 1} ∧
      assocLookup r.2.2.change.deps CAMBRIA_MAGIC_ACTOR = some 1 ∧
      r.1.history = doc.history ++ [r.2.2] := by
  intro r hr
  unfold CambriaBackend.applyLocalChange at hr
  rw [if_pos hseq] at hr
  split at hr <;> dsimp only at hr <;> split at hr <;>
    first
      | exact Except.noConfusion hr
      | (cases hr
         exact ⟨rfl,
           assocLookup_assocInsert_self request.deps CAMBRIA_MAGIC_ACTOR 1,
           rfl⟩)

/-- Witness for C9 at the demonstration engine and a seq-1 request. -/
theorem applyLocalChange_seq1_injects_phantom_dep_witness :
    (match CambriaBackend.applyLocalChange demoBackend demoLensLib demoDoc
        demoRequest with
     | .ok r =>
       assocLookup r.2.2.change.deps CAMBRIA_MAGIC_ACTOR = some 1 ∧
       r.1.history = demoDoc.history ++ [r.2.2]
     | .error _ => False) := by
  cases hr : CambriaBackend.applyLocalChange demoBackend demoLensLib demoDoc
      demoRequest with
  | error e =>
    have hok : (CambriaBackend.applyLocalChange demoBackend demoLensLib
        demoDoc demoRequest).isOk = true := by decide
    rw [hr] at hok
    exact absurd hok (by simp [Except.isOk, Except.toBool])
  | ok r =>
    have h := applyLocalChange_seq1_injects_phantom_dep demoBackend demoLensLib
      demoDoc demoRequest rfl r hr
    exact ⟨h.2.1, h.2.2⟩

/-- C8. Bootstrap construction: the defaults change is built by applying
the empty lens stack to the root-existence patch under the schema's JSON
schema, dropping the leading root-creation patch op, converting the rest
with `patchToOps` against the given instance, and wrapping the ops in a
change with the phantom actor, `seq = 1` and empty deps. -/
theorem bootstrap_spec (LL : LensLib) (inst : Instance)
    (lensState : LensState) (sch : JsonValue) (lensed : List PatchOp)
    (ops : List Op)
    (hsch : LL.lensGraphSchema lensState.graph inst.schema = some sch)
    (hlens : LL.applyLensToPatch []
      [{op := "add", path := "", value := some (.vobj .fnil)}] (some sch) =
      .ok lensed)
    (hops : patchToOps (lensed.drop 1)
      { actor := CAMBRIA_MAGIC_ACTOR, message := "", deps := [], seq := 1,
        ops := [] } 1 inst = .ok ops) :
    bootstrap LL inst lensState = .ok
      { actor := CAMBRIA_MAGIC_ACTOR, message := "", deps := [], seq := 1,
        ops := ops } := by
  unfold bootstrap
  rw [hsch]
  dsimp only
  rw [hlens]
  dsimp only
  rw [hops]

/-- Witness for C8: bootstrapping a fresh demo instance yields the phantom
change with the defaults ops (empty under the identity lens library). -/
theorem bootstrap_spec_witness :
    bootstrap demoLensLib (initInstance demoBackend "S")
      { inDoc := [], graph := {} } = .ok
      { actor := CAMBRIA_MAGIC_ACTOR, message := "", deps := [], seq := 1,
        ops := [] } :=
  bootstrap_spec demoLensLib (initInstance demoBackend "S")
    { inDoc := [], graph := {} } (.vobj .fnil)
    [{op := "add", path := "", value := some (.vobj .fnil)}] []
    rfl rfl rfl

/-- C3. Idempotence of block application: if the primary shadow is
bootstrapped, its clock already covers `(B.actor, B.seq)`, and the backend
maps an empty change list to an unchanged state with empty diffs and the
stored clock/deps, then `applyChanges([B])` filters the block out, leaves
the history and the primary shadow unchanged, and returns a patch with no
diffs. -/
theorem applyChanges_superseded_block_noop (B2 : AMBackend) (LL : LensLib)
    (fuel : Nat) (doc : CambriaBackend) (B : CambriaBlock)
    (hboot : (CambriaBackend.getInstance B2 doc doc.schema).bootstrapped = true)
    (hcov : B.seq ≤ (assocLookup
      (CambriaBackend.getInstance B2 doc doc.schema).clock B.actor).getD 0)
    (hempty : B2.applyChanges
        (CambriaBackend.getInstance B2 doc doc.schema).state [] =
      ((CambriaBackend.getInstance B2 doc doc.schema).state,
       { diffs := [],
         clock := some (CambriaBackend.getInstance B2 doc doc.schema).clock,
         deps := some (CambriaBackend.getInstance B2 doc doc.schema).deps })) :
    CambriaBackend.applyChanges B2 LL (fuel + 1) doc [B] =
      .ok ({ doc with
              instances := assocInsert doc.instances doc.schema
                (CambriaBackend.getInstance B2 doc doc.schema) },
           { diffs := [],
             clock := some (CambriaBackend.getInstance B2 doc doc.schema).clock,
             deps := some (CambriaBackend.getInstance B2 doc doc.schema).deps }) ∧
    CambriaBackend.getInstance B2
        { doc with
          instances := assocInsert doc.instances doc.schema
            (CambriaBackend.getInstance B2 doc doc.schema) } doc.schema =
      CambriaBackend.getInstance B2 doc doc.schema := by
  have hinst :
      Instance.mk (CambriaBackend.getInstance B2 doc doc.schema).clock
        (CambriaBackend.getInstance B2 doc doc.schema).schema
        (CambriaBackend.getInstance B2 doc doc.schema).deps
        (CambriaBackend.getInstance B2 doc doc.schema).elem
        true
        (CambriaBackend.getInstance B2 doc doc.schema).state =
      CambriaBackend.getInstance B2 doc doc.schema := by
    cases hI : CambriaBackend.getInstance B2 doc doc.schema
    rw [hI] at hboot
    simp only at hboot
    rw [hboot]
  constructor
  · unfold CambriaBackend.applyChanges
    dsimp only
    have hfilter : List.filter (fun b =>
        decide (b.seq > (assocLookup
          (CambriaBackend.getInstance B2 doc doc.schema).clock b.actor).getD 0))
        [B] = [] := by
      simp only [List.filter]
      rw [decide_eq_false (by omega)]
    rw [hfilter]
    unfold applySchemaChanges
    dsimp only [applySchemaLoop]
    rw [hboot, Bool.not_true]
    rw [if_neg Bool.false_ne_true]
    unfold applyChangesToInstance
    dsimp only [List.foldl_nil]
    rw [hempty]
    dsimp only [Option.getD_some]
    rw [hinst]
    rw [List.append_nil]
  · unfold CambriaBackend.getInstance
    simp only [assocLookup_assocInsert_self, Option.getD_some]

/-- A bootstrapped primary instance whose clock covers actor `a` at 1. -/
def demoInstApplied : Instance :=
  { clock := [("a", 1)], schema := "S", deps := [], elem := [],
    bootstrapped := true, state := ⟨[]⟩ }

/-- A backend whose empty-apply echoes `demoInstApplied`'s clock/deps. -/
def demoBackendE : AMBackend :=
  { init := ⟨[]⟩,
    applyChanges := fun s _ =>
      (s, { diffs := [], clock := some [("a", 1)], deps := some [] }),
    applyLocalChange := fun s _ => (s, { diffs := [], clock := none, deps := none }),
    getPatch := fun _ => { diffs := [], clock := none, deps := none } }

/-- An engine that has already absorbed actor `a`'s change 1. -/
def demoDocApplied : CambriaBackend :=
  { schema := "S", history := [], lenses := [],
    lensState := { inDoc := [], graph := {} },
    instances := [("S", demoInstApplied)] }

/-- The already-applied block `(a, 1)`. -/
def demoBlock : CambriaBlock :=
  { schema := "S", lenses := [],
    change := { actor := "a", seq := 1, deps := [], ops := [] },
    actor := "a", seq := 1 }

/-- Witness for C3: reapplying the absorbed block is a no-op with empty
diffs. -/
theorem applyChanges_superseded_block_noop_witness :
    CambriaBackend.applyChanges demoBackendE demoLensLib 1 demoDocApplied
      [demoBlock] =
      .ok ({ demoDocApplied with
              instances := assocInsert demoDocApplied.instances "S"
                (CambriaBackend.getInstance demoBackendE demoDocApplied "S") },
           { diffs := [], clock := some [("a", 1)], deps := some [] }) ∧
    CambriaBackend.getInstance demoBackendE
        { demoDocApplied with
          instances := assocInsert demoDocApplied.instances "S"
            (CambriaBackend.getInstance demoBackendE demoDocApplied "S") } "S" =
      CambriaBackend.getInstance demoBackendE demoDocApplied "S" := by
  have h := applyChanges_superseded_block_noop demoBackendE demoLensLib 0
    demoDocApplied demoBlock (by decide) (by decide) (by decide)
  exact ⟨h.1.trans (by decide), h.2⟩

/-! ### C4, C5: the translator's action selection and soft drop -/

/-- A root map holding `items → L1` (a list with one element `a:1`) and a
key `k` currently set to null. -/
def demoRecRoot : ObjRec :=
  { initAction := "", keys := [("items", .vstr "L1"), ("k", .vnull)] }

/-- The list object `L1`, linked from the root under `items`. -/
def demoRecList : ObjRec :=
  { initAction := "makeList", elemIds := ["a:1"],
    inbound := some (ROOT_ID, "items") }

/-- A two-object backend state: the root map and the list `L1`. -/
def demoState : BackendState := ⟨[(ROOT_ID, demoRecRoot), ("L1", demoRecList)]⟩

/-- A shadow over `demoState` with `elem[a] = 1`. -/
def demoInst : Instance :=
  { clock := [], schema := "S", deps := [], elem := [("a", 1)],
    bootstrapped := true, state := demoState }

/-- The cached insert op anchored after element `a:1`. -/
def demoInsOp : Op :=
  { action := "ins", obj := some "L1", key := some "a:1", elem := some 2 }

/-- Constructor-level reductions used to discharge object-type tests. -/
theorem objTypeObjectNeList : (ObjectType.object = ObjectType.list) = False := by
  simp

theorem objTypeListEqList : (ObjectType.list = ObjectType.list) = True := by
  simp

/-- The four concrete `set` ops exercised by the C4 witness. -/
def demoSetNullKey : Op :=
  { action := "set", obj := some ROOT_ID, key := some "k",
    value := some (.vnum 3) }

/-- A `set` on a key absent from the root map. -/
def demoSetFresh : Op :=
  { action := "set", obj := some ROOT_ID, key := some "fresh",
    value := some (.vnum 3) }

/-- A `set` overwriting the existing list element `a:1`. -/
def demoSetListElem : Op :=
  { action := "set", obj := some "L1", key := some "a:1",
    value := some (.vstr "x") }

/-- A `set` reifying the cached insert `a:2`. -/
def demoSetCached : Op :=
  { action := "set", obj := some "L1", key := some "a:2",
    value := some (.vstr "y") }

/-- Counterexample to C4 as stated: a `set` on a map key that is absent
(`fresh` is not on the root map) emits `replace`, not `add` — JS compares
`oldVal === null`, and an absent key reads back `undefined`, not `null`. -/
theorem opToPatch_absent_map_key_is_replace :
    opToPatch demoSetFresh demoInst [] =
      .ok ([{ op := "replace", path := "/fresh", value := some (.vnum 3) }],
           []) ∧
    "replace" ≠ "add" := by
  constructor
  · decide
  · decide

/-- C4 (amended). Action selection of `opToPatch` for `set`: on a map
parent it emits `add` exactly when the key is present with value `null`
and `replace` otherwise (including when the key is absent); on a list
parent it emits `replace` at the numeric index of the key when the key is
not in the element cache, and `add` at one past the insert-after anchor's
index when it is. -/
theorem opToPatch_set_action_spec :
    (∀ (op : Op) (inst : Instance) (EC : ElemCache) (p : List String),
      op.action = "set" →
      getObjType inst.state op.obj = .object →
      getMapValue inst.state op.obj op.key = some .vnull →
      getPath inst.state op.obj = some p →
      opToPatch op inst EC =
        .ok ([{ op := "add",
                path := "/" ++ joinChar '/' (p ++ [op.key.getD ""]),
                value := op.value }], EC)) ∧
    (∀ (op : Op) (inst : Instance) (EC : ElemCache) (p : List String),
      op.action = "set" →
      getObjType inst.state op.obj = .object →
      getMapValue inst.state op.obj op.key ≠ some .vnull →
      getPath inst.state op.obj = some p →
      opToPatch op inst EC =
        .ok ([{ op := "replace",
                path := "/" ++ joinChar '/' (p ++ [op.key.getD ""]),
                value := op.value }], EC)) ∧
    (∀ (op : Op) (inst : Instance) (EC : ElemCache) (p : List String)
       (k : String) (idx : Int),
      op.action = "set" →
      op.key = some k →
      getObjType inst.state op.obj = .list →
      assocLookup EC k = none →
      findIndexOfElem inst.state op.obj k = .ok idx →
      getPath inst.state op.obj = some p →
      opToPatch op inst EC =
        .ok ([{ op := "replace",
                path := "/" ++ joinChar '/' (p ++ [intToString idx]),
                value := op.value }], EC)) ∧
    (∀ (op : Op) (inst : Instance) (EC : ElemCache) (p : List String)
       (k pk : String) (cached : Op) (idx : Int),
      op.action = "set" →
      op.key = some k →
      k ≠ "" →
      getObjType inst.state op.obj = .list →
      assocLookup EC k = some cached →
      cached.key = some pk →
      findIndexOfElem inst.state op.obj pk = .ok idx →
      getPath inst.state op.obj = some p →
      opToPatch op inst EC =
        .ok ([{ op := "add",
                path := "/" ++ joinChar '/' (p ++ [intToString (idx + 1)]),
                value := op.value }], assocErase EC k)) := by
  refine ⟨?_, ?_, ?_, ?_⟩
  · intro op inst EC p hact hty hmv hp
    unfold opToPatch buildPath
    simp only [hact, hty, hmv, hp, Option.getD_some, objTypeObjectNeList,
      if_false]
  · intro op inst EC p hact hty hmv hp
    unfold opToPatch buildPath
    cases hv : getMapValue inst.state op.obj op.key with
    | none =>
      simp only [hact, hty, hv, hp, Option.getD_some, objTypeObjectNeList,
        if_false]
    | some v =>
      cases v
      case vnull => exact absurd hv hmv
      all_goals simp only [hact, hty, hv, hp, Option.getD_some,
        objTypeObjectNeList, if_false]
  · intro op inst EC p k idx hact hk hty hcache hidx hp
    unfold opToPatch buildPath
    have hkc : keyInCache (some k) EC = false := by
      simp [keyInCache, hcache]
    simp only [hact, hty, hkc, hk, hcache, hidx, hp, Option.getD_some,
      Bool.false_eq_true, objTypeListEqList, if_true, if_false]
  · intro op inst EC p k pk cached idx hact hk hne hty hcache hck hidx hp
    unfold opToPatch buildPath
    have hkc : keyInCache (some k) EC = true := by
      simp [keyInCache, hne, hcache]
    simp only [hact, hty, hkc, hk, hcache, hck, hidx, hp, Option.getD_some,
      objTypeListEqList, if_true]

/-- Witness for the amended C4 at concrete states: present-null key,
absent key, list overwrite, and cached insert. -/
theorem opToPatch_set_action_spec_witness :
    opToPatch demoSetNullKey demoInst [] =
      .ok ([{ op := "add", path := "/k", value := some (.vnum 3) }], []) ∧
    opToPatch demoSetFresh demoInst [] =
      .ok ([{ op := "replace", path := "/fresh", value := some (.vnum 3) }],
           []) ∧
    opToPatch demoSetListElem demoInst [] =
      .ok ([{ op := "replace", path := "/items/0", value := some (.vstr "x") }],
           []) ∧
    opToPatch demoSetCached demoInst [("a:2", demoInsOp)] =
      .ok ([{ op := "add", path := "/items/1", value := some (.vstr "y") }],
           []) := by
  refine ⟨?_, ?_, ?_, ?_⟩
  · exact (opToPatch_set_action_spec.1 demoSetNullKey demoInst [] []
      rfl (by decide) (by decide) (by decide)).trans (by decide)
  · exact (opToPatch_set_action_spec.2.1 demoSetFresh demoInst [] []
      rfl (by decide) (by decide) (by decide)).trans (by decide)
  · exact (opToPatch_set_action_spec.2.2.1 demoSetListElem demoInst []
      ["items"] "a:1" 0
      rfl rfl (by decide) (by decide) (by decide) (by decide)).trans (by decide)
  · exact (opToPatch_set_action_spec.2.2.2 demoSetCached demoInst
      [("a:2", demoInsOp)] ["items"] "a:2" "a:1" demoInsOp 0
      rfl rfl (by decide) (by decide) (by decide) (by decide) (by decide)
      (by decide)).trans (by decide)

/-- The patch op dropped by the C5 witness. -/
def demoPatchDrop : PatchOp :=
  { op := "replace", path := "/items/5", value := some (.vstr "z") }

/-- The change context used by the C5 witness. -/
def demoOrigin : Change := { actor := "a", seq := 1, deps := [], ops := [] }

/-- `patchToOpsAction` on a `remove` patch op. -/
theorem patchToOpsAction_remove (makeObj : String) (patchop : PatchOp)
    (cache : List (String × ObjectId)) (h : patchop.op = "remove") :
    patchToOpsAction makeObj patchop cache = .ok ("del", [], cache) := by
  unfold patchToOpsAction
  rw [if_pos h]

/-- `patchToOpsAction` on an `add`/`replace` with a scalar-or-null value. -/
theorem patchToOpsAction_scalar (makeObj : String) (patchop : PatchOp)
    (cache : List (String × ObjectId)) (v : JsonValue)
    (h : patchop.op = "add" ∨ patchop.op = "replace")
    (hv : patchop.value = some v) (hs : v.isScalarOrNull = true) :
    patchToOpsAction makeObj patchop cache = .ok ("set", [], cache) := by
  unfold patchToOpsAction
  rw [if_neg (by rcases h with h | h <;> rw [h] <;> decide), if_pos h, hv]
  cases v <;> simp only [JsonValue.isScalarOrNull] at hs <;>
    first
      | exact Bool.noConfusion hs
      | rfl

/-- The container-valued patch op dropped by the C5 witness. -/
def demoPatchDropArr : PatchOp :=
  { op := "replace", path := "/items/5", value := some (.varr .anil) }

/-- C5. Soft drop: a `replace` patch op whose parent resolves to a list but
whose decimal index resolves to no element contributes no ops and raises no
error, for every value shape the classifier accepts: the path cache is
returned unchanged for a scalar value, and extended with the synthetic
`make*` object's path entry for a container value (the discarded `make*`
op's only trace). -/
theorem patchToOps_replace_missing_index_soft_drop :
    (∀ (origin : Change) (opIndex : Nat) (inst : Instance)
       (patchop : PatchOp) (i : Nat) (cache : List (String × ObjectId))
       (v : JsonValue) (n : Int) (L : ObjectId),
      patchop.op = "replace" →
      patchop.value = some v →
      v.isScalarOrNull = true →
      assocLookup cache
        (joinChar '/' (splitOnChar '/' patchop.path).dropLast) = none →
      getObjId inst.state
        (joinChar '/' (splitOnChar '/' patchop.path).dropLast) =
        .ok (some L) →
      getObjType inst.state (some L) = .list →
      parseIntJS (((splitOnChar '/' patchop.path).getLast?).getD "") = some n →
      findElemOfIndex inst.state (some L) n = .ok none →
      patchToOpsGo origin opIndex inst patchop i cache = .ok ([], cache)) ∧
    (∀ (origin : Change) (opIndex : Nat) (inst : Instance)
       (patchop : PatchOp) (i : Nat) (cache : List (String × ObjectId))
       (v : JsonValue) (n : Int) (L : ObjectId),
      patchop.op = "replace" →
      patchop.value = some v →
      v.isContainer = true →
      joinChar '/' (splitOnChar '/' patchop.path).dropLast ≠ patchop.path →
      assocLookup cache
        (joinChar '/' (splitOnChar '/' patchop.path).dropLast) = none →
      getObjId inst.state
        (joinChar '/' (splitOnChar '/' patchop.path).dropLast) =
        .ok (some L) →
      getObjType inst.state (some L) = .list →
      parseIntJS (((splitOnChar '/' patchop.path).getLast?).getD "") = some n →
      findElemOfIndex inst.state (some L) n = .ok none →
      patchToOpsGo origin opIndex inst patchop i cache =
        .ok ([], assocInsert cache patchop.path
          (v5 (origin.actor ++ ":" ++ intToString origin.seq ++ ":" ++
            natToString opIndex ++ ":" ++ natToString i ++ "\"")
            MAGIC_UUID))) ∧
    (∀ (origin : Change) (opIndex : Nat) (inst : Instance)
       (patchop : PatchOp) (v : JsonValue) (n : Int) (L : ObjectId),
      patchop.op = "replace" →
      patchop.value = some v →
      (v.isScalarOrNull = true ∨
        (v.isContainer = true ∧
         joinChar '/' (splitOnChar '/' patchop.path).dropLast ≠
           patchop.path)) →
      assocLookup [("", ROOT_ID)]
        (joinChar '/' (splitOnChar '/' patchop.path).dropLast) = none →
      getObjId inst.state
        (joinChar '/' (splitOnChar '/' patchop.path).dropLast) =
        .ok (some L) →
      getObjType inst.state (some L) = .list →
      parseIntJS (((splitOnChar '/' patchop.path).getLast?).getD "") = some n →
      findElemOfIndex inst.state (some L) n = .ok none →
      patchToOps [patchop] origin opIndex inst = .ok []) := by
  have main : ∀ (origin : Change) (opIndex : Nat) (inst : Instance)
      (patchop : PatchOp) (i : Nat) (cache : List (String × ObjectId))
      (action : String) (acc : List Op)
      (cache2 : List (String × ObjectId)) (n : Int) (L : ObjectId),
      patchop.op = "replace" →
      patchToOpsAction
        (v5 (origin.actor ++ ":" ++ intToString origin.seq ++ ":" ++
          natToString opIndex ++ ":" ++ natToString i ++ "\"") MAGIC_UUID)
        patchop cache = .ok (action, acc, cache2) →
      assocLookup cache2
        (joinChar '/' (splitOnChar '/' patchop.path).dropLast) = none →
      getObjId inst.state
        (joinChar '/' (splitOnChar '/' patchop.path).dropLast) =
        .ok (some L) →
      getObjType inst.state (some L) = .list →
      parseIntJS (((splitOnChar '/' patchop.path).getLast?).getD "") =
        some n →
      findElemOfIndex inst.state (some L) n = .ok none →
      patchToOpsGo origin opIndex inst patchop i cache = .ok ([], cache2) := by
    intro origin opIndex inst patchop i cache action acc cache2 n L hrep
      hact hcm hobj hty hparse hmiss
    unfold patchToOpsGo
    dsimp only
    rw [hact]
    dsimp only
    rw [hcm, hobj]
    dsimp only
    rw [if_pos hty, hparse]
    dsimp only
    rw [if_neg (by rw [hrep]; decide), hmiss]
  have goScalar : ∀ (origin : Change) (opIndex : Nat) (inst : Instance)
      (patchop : PatchOp) (i : Nat) (cache : List (String × ObjectId))
      (v : JsonValue) (n : Int) (L : ObjectId),
      patchop.op = "replace" →
      patchop.value = some v →
      v.isScalarOrNull = true →
      assocLookup cache
        (joinChar '/' (splitOnChar '/' patchop.path).dropLast) = none →
      getObjId inst.state
        (joinChar '/' (splitOnChar '/' patchop.path).dropLast) =
        .ok (some L) →
      getObjType inst.state (some L) = .list →
      parseIntJS (((splitOnChar '/' patchop.path).getLast?).getD "") =
        some n →
      findElemOfIndex inst.state (some L) n = .ok none →
      patchToOpsGo origin opIndex inst patchop i cache = .ok ([], cache) := by
    intro origin opIndex inst patchop i cache v n L hrep hval hscal hcm
      hobj hty hparse hmiss
    exact main origin opIndex inst patchop i cache "set" [] cache n L hrep
      (patchToOpsAction_scalar _ patchop cache v (Or.inr hrep) hval hscal)
      hcm hobj hty hparse hmiss
  have goContainer : ∀ (origin : Change) (opIndex : Nat) (inst : Instance)
      (patchop : PatchOp) (i : Nat) (cache : List (String × ObjectId))
      (v : JsonValue) (n : Int) (L : ObjectId),
      patchop.op = "replace" →
      patchop.value = some v →
      v.isContainer = true →
      joinChar '/' (splitOnChar '/' patchop.path).dropLast ≠ patchop.path →
      assocLookup cache
        (joinChar '/' (splitOnChar '/' patchop.path).dropLast) = none →
      getObjId inst.state
        (joinChar '/' (splitOnChar '/' patchop.path).dropLast) =
        .ok (some L) →
      getObjType inst.state (some L) = .list →
      parseIntJS (((splitOnChar '/' patchop.path).getLast?).getD "") =
        some n →
      findElemOfIndex inst.state (some L) n = .ok none →
      patchToOpsGo origin opIndex inst patchop i cache =
        .ok ([], assocInsert cache patchop.path
          (v5 (origin.actor ++ ":" ++ intToString origin.seq ++ ":" ++
            natToString opIndex ++ ":" ++ natToString i ++ "\"")
            MAGIC_UUID)) := by
    intro origin opIndex inst patchop i cache v n L hrep hval hcont hne hcm
      hobj hty hparse hmiss
    have hcm2 : assocLookup
        (assocInsert cache patchop.path
          (v5 (origin.actor ++ ":" ++ intToString origin.seq ++ ":" ++
            natToString opIndex ++ ":" ++ natToString i ++ "\"")
            MAGIC_UUID))
        (joinChar '/' (splitOnChar '/' patchop.path).dropLast) = none := by
      rw [assocLookup_assocInsert_ne cache patchop.path
        (joinChar '/' (splitOnChar '/' patchop.path).dropLast) _
        (Ne.symm hne)]
      exact hcm
    cases v with
    | varr a =>
      refine main origin opIndex inst patchop i cache "link"
        [{action := "makeList",
          obj := some (v5 (origin.actor ++ ":" ++ intToString origin.seq ++
            ":" ++ natToString opIndex ++ ":" ++ natToString i ++ "\"")
            MAGIC_UUID)}] _ n L hrep ?_ hcm2 hobj hty hparse hmiss
      unfold patchToOpsAction
      rw [if_neg (by rw [hrep]; decide), if_pos (Or.inr hrep), hval]
    | vobj f =>
      cases f with
      | fnil =>
        refine main origin opIndex inst patchop i cache "link"
          [{action := "makeMap",
            obj := some (v5 (origin.actor ++ ":" ++ intToString origin.seq ++
              ":" ++ natToString opIndex ++ ":" ++ natToString i ++ "\"")
              MAGIC_UUID)}] _ n L hrep ?_ hcm2 hobj hty hparse hmiss
        unfold patchToOpsAction
        rw [if_neg (by rw [hrep]; decide), if_pos (Or.inr hrep), hval]
      | fcons k w rest =>
        exact absurd hcont (by simp [JsonValue.isContainer])
    | vnull => exact absurd hcont (by simp [JsonValue.isContainer])
    | vstr a => exact absurd hcont (by simp [JsonValue.isContainer])
    | vnum a => exact absurd hcont (by simp [JsonValue.isContainer])
    | vbool a => exact absurd hcont (by simp [JsonValue.isContainer])
  refine ⟨goScalar, goContainer, ?_⟩
  intro origin opIndex inst patchop v n L hrep hval hv hcm hobj hty hparse
    hmiss
  rcases hv with hscal | ⟨hcont, hne⟩
  · unfold patchToOps patchToOpsAll
    rw [goScalar origin opIndex inst patchop 0 [("", ROOT_ID)] v n L hrep
      hval hscal hcm hobj hty hparse hmiss]
    rfl
  · unfold patchToOps patchToOpsAll
    rw [goContainer origin opIndex inst patchop 0 [("", ROOT_ID)] v n L
      hrep hval hcont hne hcm hobj hty hparse hmiss]
    rfl

/-- Witness for C5: replacing index 5 of the one-element list `L1` is
silently dropped, for a scalar value (cache unchanged) and for an empty
array (cache gains the synthetic object's path entry). -/
theorem patchToOps_replace_missing_index_soft_drop_witness :
    patchToOpsGo demoOrigin 0 demoInst demoPatchDrop 0 [("", ROOT_ID)] =
      .ok ([], [("", ROOT_ID)]) ∧
    patchToOpsGo demoOrigin 0 demoInst demoPatchDropArr 0 [("", ROOT_ID)] =
      .ok ([], [("", ROOT_ID),
        ("/items/5", "f1bb7a0b-2d26-48ca-aaa3-92c63bbb5c50/a:1:0:0\"")]) ∧
    patchToOps [demoPatchDrop] demoOrigin 0 demoInst = .ok [] ∧
    patchToOps [demoPatchDropArr] demoOrigin 0 demoInst = .ok [] :=
  ⟨patchToOps_replace_missing_index_soft_drop.1
     demoOrigin 0 demoInst demoPatchDrop 0 [("", ROOT_ID)] (.vstr "z") 5 "L1"
     rfl rfl rfl (by decide) (by decide) (by decide) (by decide) (by decide),
   (patchToOps_replace_missing_index_soft_drop.2.1
     demoOrigin 0 demoInst demoPatchDropArr 0 [("", ROOT_ID)] (.varr .anil)
     5 "L1" rfl rfl rfl (by decide) (by decide) (by decide) (by decide)
     (by decide) (by decide)).trans (by decide),
   patchToOps_replace_missing_index_soft_drop.2.2
     demoOrigin 0 demoInst demoPatchDrop (.vstr "z") 5 "L1"
     rfl rfl (Or.inl rfl) (by decide) (by decide) (by decide) (by decide)
     (by decide),
   patchToOps_replace_missing_index_soft_drop.2.2
     demoOrigin 0 demoInst demoPatchDropArr (.varr .anil) 5 "L1"
     rfl rfl (Or.inr ⟨rfl, by decide⟩) (by decide) (by decide) (by decide)
     (by decide) (by decide)⟩

/-! ### Printing/parsing and split/join lemmas for the round-trip -/

theorem digitVal_digitChar (d : Nat) (h : d < 10) :
    digitVal (digitChar d) = some d := by
  interval_cases d <;> decide

theorem digitChar_ne_dash (d : Nat) (h : d < 10) : digitChar d ≠ '-' := by
  interval_cases d <;> decide

theorem natToCharsAux_eq_digits (fuel : Nat) :
    ∀ n : Nat, n ≤ fuel →
      natToCharsAux fuel n = (Nat.digits 10 n).map digitChar := by
  induction fuel with
  | zero =>
    intro n h
    have h0 : n = 0 := Nat.le_zero.mp h
    subst h0
    simp [natToCharsAux]
  | succ fuel ih =>
    intro n h
    cases hn : n with
    | zero => simp [natToCharsAux]
    | succ m =>
      subst hn
      have hpos : 0 < m + 1 := Nat.succ_pos m
      rw [show natToCharsAux (fuel + 1) (m + 1) =
        digitChar ((m + 1) % 10) :: natToCharsAux fuel ((m + 1) / 10) from rfl]
      rw [Nat.digits_def' (by norm_num : (1 : Nat) < 10) hpos]
      rw [List.map_cons]
      rw [ih ((m + 1) / 10)
        (by
          have := Nat.div_lt_self hpos (by norm_num : (1 : Nat) < 10)
          omega)]

theorem natToString_data (n : Nat) (h : 0 < n) :
    (natToString n).data = ((Nat.digits 10 n).reverse).map digitChar := by
  unfold natToString
  rw [if_neg (by omega)]
  show (natToCharsAux (n + 1) n).reverse = _
  rw [natToCharsAux_eq_digits (n + 1) n (by omega), ← List.map_reverse]

theorem parseDigitsAux_map (ds : List Nat) :
    ∀ acc : Nat, (∀ d ∈ ds, d < 10) →
      parseDigitsAux (ds.map digitChar) acc =
        ds.foldl (fun a d => a * 10 + d) acc := by
  induction ds with
  | nil => intro acc _; rfl
  | cons d rest ih =>
    intro acc h
    rw [List.map_cons]
    show (match digitVal (digitChar d) with
          | some d' => parseDigitsAux (rest.map digitChar) (acc * 10 + d')
          | none => acc) = _
    rw [digitVal_digitChar d (h d (by simp))]
    rw [List.foldl_cons]
    exact ih (acc * 10 + d) (fun x hx => h x (by simp [hx]))

theorem foldr_digits_eq_ofDigits (ds : List Nat) :
    List.foldr (fun d a => a * 10 + d) 0 ds = Nat.ofDigits 10 ds := by
  induction ds with
  | nil => simp [Nat.ofDigits]
  | cons d rest ih =>
    rw [List.foldr_cons, ih, Nat.ofDigits_cons]
    ring

theorem foldl_reverse_digits (n : Nat) :
    ((Nat.digits 10 n).reverse).foldl (fun a d => a * 10 + d) 0 = n := by
  rw [List.foldl_reverse, foldr_digits_eq_ofDigits]
  exact Nat.ofDigits_digits 10 n

theorem natToString_parse_chars (n : Nat) (hpos : 0 < n) :
    ∃ c cs d, (natToString n).data = c :: cs ∧ c ≠ '-' ∧
      digitVal c = some d ∧ parseDigitsAux cs d = n := by
  have hne : Nat.digits 10 n ≠ [] :=
    Nat.digits_ne_nil_iff_ne_zero.mpr (by omega)
  obtain ⟨r, R, hR⟩ : ∃ r R, (Nat.digits 10 n).reverse = r :: R := by
    cases hrev : (Nat.digits 10 n).reverse with
    | nil =>
      exfalso
      apply hne
      have := congrArg List.reverse hrev
      simpa using this
    | cons a b => exact ⟨a, b, rfl⟩
  have hd : ∀ d ∈ (Nat.digits 10 n).reverse, d < 10 := fun d hd =>
    Nat.digits_lt_base (by norm_num) (List.mem_reverse.mp hd)
  have hr10 : r < 10 := hd r (by rw [hR]; simp)
  have hR10 : ∀ d ∈ R, d < 10 := fun d hdm => hd d (by rw [hR]; simp [hdm])
  refine ⟨digitChar r, R.map digitChar, r, ?_, digitChar_ne_dash r hr10,
    digitVal_digitChar r hr10, ?_⟩
  · rw [natToString_data n hpos, hR, List.map_cons]
  · rw [parseDigitsAux_map R r hR10]
    have h2 : (r :: R).foldl (fun a d => a * 10 + d) 0 = n := by
      rw [← hR]
      exact foldl_reverse_digits n
    rw [List.foldl_cons] at h2
    simpa using h2

theorem parseIntJS_natToString (n : Nat) :
    parseIntJS (natToString n) = some (n : Int) := by
  by_cases h0 : n = 0
  · subst h0; decide
  · obtain ⟨c, cs, d, hdata, hdash, hdv, hparse⟩ :=
      natToString_parse_chars n (Nat.pos_of_ne_zero h0)
    unfold parseIntJS
    rw [hdata]
    dsimp only
    rw [if_neg hdash, hdv]
    simp only [Option.map_some']
    rw [hparse]

theorem parseIntJS_intToString (i : Int) :
    parseIntJS (intToString i) = some i := by
  unfold intToString
  by_cases hneg : i < 0
  · rw [if_pos hneg]
    have hpos : 0 < i.natAbs := by
      rw [Int.natAbs_pos]
      omega
    obtain ⟨c, cs, d, hdata, hdash, hdv, hparse⟩ :=
      natToString_parse_chars i.natAbs hpos
    unfold parseIntJS
    rw [String.data_append, show ("-" : String).data = ['-'] from rfl, hdata,
      List.singleton_append]
    dsimp only
    rw [if_pos rfl]
    rw [hdv]
    simp only [Option.map_some']
    rw [hparse]
    congr 1
    omega
  · rw [if_neg hneg, parseIntJS_natToString]
    congr 1
    omega

theorem splitCharList_no_sep (sep : Char) (x : List Char) :
    ∀ acc, sep ∉ x → splitCharList sep x acc = [acc.reverse ++ x] := by
  induction x with
  | nil => intro acc _; simp [splitCharList]
  | cons c cx ih =>
    intro acc h
    have hc : c ≠ sep := fun he => h (by simp [he])
    simp only [splitCharList, if_neg hc]
    rw [ih (c :: acc) (fun hm => h (by simp [hm]))]
    simp

theorem splitCharList_append_sep (sep : Char) (x : List Char) :
    ∀ (rest : List Char) (acc : List Char), sep ∉ x →
      splitCharList sep (x ++ sep :: rest) acc =
        (acc.reverse ++ x) :: splitCharList sep rest [] := by
  induction x with
  | nil => intro rest acc _; simp [splitCharList]
  | cons c cx ih =>
    intro rest acc h
    have hc : c ≠ sep := fun he => h (by simp [he])
    simp only [List.cons_append, splitCharList, if_neg hc]
    rw [show cx.append (sep :: rest) = cx ++ sep :: rest from rfl]
    rw [ih rest (c :: acc) (fun hm => h (by simp [hm]))]
    simp

theorem splitCharList_joinCharList (sep : Char) :
    ∀ ps : List (List Char), ps ≠ [] → (∀ x ∈ ps, sep ∉ x) →
      splitCharList sep (joinCharList sep ps) [] = ps := by
  intro ps
  induction ps with
  | nil => intro h _; exact absurd rfl h
  | cons x rest ih =>
    intro _ h
    cases rest with
    | nil =>
      show splitCharList sep (joinCharList sep [x]) [] = [x]
      rw [show joinCharList sep [x] = x from rfl]
      rw [splitCharList_no_sep sep x [] (h x (by simp))]
      simp
    | cons y rest2 =>
      rw [show joinCharList sep (x :: y :: rest2) =
        x ++ sep :: joinCharList sep (y :: rest2) from rfl]
      rw [splitCharList_append_sep sep x _ [] (h x (by simp))]
      rw [ih (by simp) (fun z hz => h z (by simp [hz]))]
      simp

theorem splitOnChar_joinChar (sep : Char) (parts : List String)
    (hne : parts ≠ []) (h : ∀ s ∈ parts, sepFree sep s) :
    splitOnChar sep (joinChar sep parts) = parts := by
  unfold splitOnChar joinChar
  rw [show (String.mk (joinCharList sep (parts.map String.data))).data =
    joinCharList sep (parts.map String.data) from rfl]
  rw [splitCharList_joinCharList sep (parts.map String.data)
    (by simpa using hne)
    (by
      intro x hx
      obtain ⟨s, hs, rfl⟩ := List.mem_map.mp hx
      exact h s hs)]
  rw [List.map_map]
  rw [show (String.mk ∘ String.data) = id from funext fun s => rfl]
  exact List.map_id parts

/-- Prefixing a slash is the same as joining with a leading empty
segment. -/
theorem slash_prepend_join (z : String) (zs : List String) :
    "/" ++ joinChar '/' (z :: zs) = joinChar '/' ("" :: z :: zs) := rfl

/-- A found element id round-trips through `indexOf`/`keyOf`. -/
theorem jsIndexOf_jsKeyOf (k : String) :
    ∀ l : List String, k ∈ l →
      ∃ i : Nat, jsIndexOf l k = (i : Int) ∧ jsKeyOf l (i : Int) = some k := by
  intro l
  induction l with
  | nil => intro h; cases h
  | cons a rest ih =>
    intro h
    by_cases ha : a = k
    · refine ⟨0, ?_, ?_⟩
      · simp [jsIndexOf, ha]
      · simp [jsKeyOf, ha]
    · have hm : k ∈ rest := by
        cases h with
        | head => exact absurd rfl ha
        | tail _ hm => exact hm
      obtain ⟨i, h1, h2⟩ := ih hm
      refine ⟨i + 1, ?_, ?_⟩
      · simp only [jsIndexOf, if_neg ha, h1]
        rw [if_neg (by omega)]
        push_cast
        ring
      · simp only [jsKeyOf]
        rw [if_neg (by omega)]
        rw [show ((((i + 1) : Nat) : Int)).toNat = i + 1 by omega]
        rw [List.get?_cons_succ]
        simp only [jsKeyOf] at h2
        rw [if_neg (by omega)] at h2
        rw [show ((i : Int)).toNat = i by omega] at h2
        exact h2

/-- Splitting a built path recovers the leading empty segment, the parent
path, and the key. -/
theorem buildPath_split (p : List String) (k : String) (hk : sepFree '/' k)
    (hp : ∀ s ∈ p, sepFree '/' s) :
    splitOnChar '/' ("/" ++ joinChar '/' (p ++ [k])) = "" :: p ++ [k] := by
  cases hc : p ++ [k] with
  | nil => exact absurd hc (by simp)
  | cons z zs =>
    have hfree : ∀ s ∈ ("" :: z :: zs), sepFree '/' s := by
      intro s hs
      rw [List.mem_cons] at hs
      cases hs with
      | inl h0 => subst h0; decide
      | inr h1 =>
        rw [← hc] at h1
        rw [List.mem_append] at h1
        cases h1 with
        | inl hmem => exact hp s hmem
        | inr hkk => rw [List.mem_singleton] at hkk; subst hkk; exact hk
    rw [slash_prepend_join]
    rw [splitOnChar_joinChar '/' ("" :: z :: zs) (by simp) hfree]
    rw [← hc]
    exact (List.cons_append "" p [k]).symm

theorem parts_getLast (p : List String) (k : String) :
    (("" :: p ++ [k]).getLast?).getD "" = k := by
  rw [show ("" :: p ++ [k]) = (("" :: p) ++ [k]) from rfl]
  rw [List.getLast?_concat]
  rfl

theorem parts_dropLast (p : List String) (k : String) :
    ("" :: p ++ [k]).dropLast = "" :: p := by
  rw [show ("" :: p ++ [k]) = (("" :: p) ++ [k]) from rfl]
  exact List.dropLast_concat

/-- Resolving the parent path through the seeded path cache and the
resolver gives the parent object. -/
theorem resolveObjPath (inst : Instance) (o : ObjectId) (p : List String)
    (h1 : p = [] → o = ROOT_ID)
    (h2 : p ≠ [] → getObjId inst.state (joinChar '/' ("" :: p)) = .ok (some o)) :
    (match assocLookup [("", ROOT_ID)] (joinChar '/' ("" :: p)) with
     | some c => Except.ok (some c)
     | none => getObjId inst.state (joinChar '/' ("" :: p))) =
      Except.ok (some o) := by
  cases p with
  | nil =>
    rw [h1 rfl]
    rfl
  | cons z zs =>
    have hne : ("" : String) ≠ joinChar '/' ("" :: z :: zs) := by
      intro he
      have hdata := congrArg String.data he
      rw [show (joinChar '/' ("" :: z :: zs)).data =
        '/' :: joinCharList '/' ((z :: zs).map String.data) from rfl] at hdata
      exact List.noConfusion hdata
    have hl : assocLookup [("", ROOT_ID)] (joinChar '/' ("" :: z :: zs)) =
        none := by
      rw [assocLookup_cons, if_neg hne]
      rfl
    rw [hl]
    exact h2 (by simp)

/-- `patchToOpsGo` on a `remove` or scalar `add`/`replace` patch op whose
parent is a map: the emitted op is exactly the `del`/`set` keyed by the
path's last segment on the resolved parent. -/
theorem patchToOpsGo_map_parent (origin : Change) (opIndex : Nat)
    (inst : Instance) (patchop : PatchOp) (i : Nat) (o : ObjectId)
    (k : String) (p : List String)
    (hpath : patchop.path = "/" ++ joinChar '/' (p ++ [k]))
    (hk : sepFree '/' k) (hp : ∀ s ∈ p, sepFree '/' s)
    (hres1 : p = [] → o = ROOT_ID)
    (hres2 : p ≠ [] →
      getObjId inst.state (joinChar '/' ("" :: p)) = .ok (some o))
    (hty : getObjType inst.state (some o) = .object) :
    (patchop.op = "remove" →
      patchToOpsGo origin opIndex inst patchop i [("", ROOT_ID)] =
        .ok ([{action := "del", obj := some o, key := some k}],
             [("", ROOT_ID)])) ∧
    (∀ v, (patchop.op = "add" ∨ patchop.op = "replace") →
      patchop.value = some v → v.isScalarOrNull = true →
      patchToOpsGo origin opIndex inst patchop i [("", ROOT_ID)] =
        .ok ([{action := "set", obj := some o, key := some k,
               value := patchop.value}], [("", ROOT_ID)])) := by
  have hsplit : splitOnChar '/' patchop.path = "" :: p ++ [k] := by
    rw [hpath]
    exact buildPath_split p k hk hp
  have hlast : ((splitOnChar '/' patchop.path).getLast?).getD "" = k := by
    rw [hsplit]
    exact parts_getLast p k
  have hdrop : (splitOnChar '/' patchop.path).dropLast = "" :: p := by
    rw [hsplit]
    exact parts_dropLast p k
  have hresolve := resolveObjPath inst o p hres1 hres2
  constructor
  · intro hrem
    unfold patchToOpsGo
    dsimp only
    rw [patchToOpsAction_remove _ _ _ hrem]
    dsimp only
    rw [hdrop, hresolve]
    dsimp only
    rw [hty]
    rw [if_neg (by rw [objTypeObjectNeList]; exact id)]
    unfold patchToOpsFinish
    rw [if_neg (by decide), if_neg (by rw [hrem]; decide), hlast,
      List.nil_append]
  · intro v hop hv hs
    unfold patchToOpsGo
    dsimp only
    rw [patchToOpsAction_scalar _ _ _ v hop hv hs]
    dsimp only
    rw [hdrop, hresolve]
    dsimp only
    rw [hty]
    rw [if_neg (by rw [objTypeObjectNeList]; exact id)]
    unfold patchToOpsFinish
    rw [if_neg (by decide), if_pos hop, hlast, List.nil_append]

/-- Every character of a decimal natural rendering is a digit character. -/
theorem natToString_chars (n : Nat) :
    ∀ c ∈ (natToString n).data, ∃ d, d < 10 ∧ c = digitChar d := by
  by_cases h0 : n = 0
  · subst h0
    intro c hc
    rw [show (natToString 0).data = ['0'] from rfl, List.mem_singleton] at hc
    exact ⟨0, by norm_num, by rw [hc]; rfl⟩
  · intro c hc
    rw [natToString_data n (Nat.pos_of_ne_zero h0)] at hc
    obtain ⟨d, hd, rfl⟩ := List.mem_map.mp hc
    exact ⟨d, Nat.digits_lt_base (by norm_num) (List.mem_reverse.mp hd), rfl⟩

theorem digitChar_ne_slash (d : Nat) (h : d < 10) : digitChar d ≠ '/' := by
  interval_cases d <;> decide

theorem digitChar_ne_colon (d : Nat) (h : d < 10) : digitChar d ≠ ':' := by
  interval_cases d <;> decide

/-- Decimal renderings are free of any separator that is neither a digit
nor the minus sign. -/
theorem sepFree_intToString (sep : Char) (i : Int) (hdash : sep ≠ '-')
    (hdig : ∀ d, d < 10 → digitChar d ≠ sep) :
    sepFree sep (intToString i) := by
  unfold sepFree intToString
  by_cases hneg : i < 0
  · rw [if_pos hneg, String.data_append,
      show ("-" : String).data = ['-'] from rfl, List.singleton_append]
    intro hmem
    rw [List.mem_cons] at hmem
    cases hmem with
    | inl h => exact hdash h
    | inr h =>
      obtain ⟨d, hd, he⟩ := natToString_chars i.natAbs sep h
      exact hdig d hd he.symm
  · rw [if_neg hneg]
    intro hmem
    obtain ⟨d, hd, he⟩ := natToString_chars i.natAbs sep hmem
    exact hdig d hd he.symm

theorem sepFree_slash_intToString (i : Int) : sepFree '/' (intToString i) :=
  sepFree_intToString '/' i (by decide) (fun d hd => digitChar_ne_slash d hd)

theorem sepFree_colon_intToString (i : Int) : sepFree ':' (intToString i) :=
  sepFree_intToString ':' i (by decide) (fun d hd => digitChar_ne_colon d hd)

/-- Splitting `a ++ ":" ++ x` on the colon recovers the two parts. -/
theorem splitOnChar_colon_pair (a x : String) (ha : sepFree ':' a)
    (hx : sepFree ':' x) :
    splitOnChar ':' (a ++ ":" ++ x) = [a, x] := by
  have hj : a ++ ":" ++ x = joinChar ':' [a, x] := by
    apply String.ext
    rw [String.data_append, String.data_append]
    show a.data ++ [':'] ++ x.data = joinCharList ':' [a.data, x.data]
    rw [show joinCharList ':' [a.data, x.data] = a.data ++ ':' :: x.data
      from rfl]
    rw [List.append_assoc]
    rfl
  rw [hj]
  refine splitOnChar_joinChar ':' [a, x] (by simp) ?_
  intro s hs
  cases hs with
  | head => exact ha
  | tail _ hs2 =>
    cases hs2 with
    | head => exact hx
    | tail _ h3 => cases h3

/-- `patchToOpsGo` on a `remove` or scalar `replace` patch op whose parent
is a list and whose decimal index resolves to an element id: the emitted op
is exactly the `del`/`set` keyed by that element id. -/
theorem patchToOpsGo_list_parent (origin : Change) (opIndex : Nat)
    (inst : Instance) (patchop : PatchOp) (i : Nat) (o : ObjectId)
    (ek : String) (p : List String) (idx : Int)
    (hpath : patchop.path = "/" ++ joinChar '/' (p ++ [intToString idx]))
    (hp : ∀ s ∈ p, sepFree '/' s)
    (hres1 : p = [] → o = ROOT_ID)
    (hres2 : p ≠ [] →
      getObjId inst.state (joinChar '/' ("" :: p)) = .ok (some o))
    (hty : getObjType inst.state (some o) = .list)
    (hfe : findElemOfIndex inst.state (some o) idx = .ok (some ek)) :
    (patchop.op = "remove" →
      patchToOpsGo origin opIndex inst patchop i [("", ROOT_ID)] =
        .ok ([{action := "del", obj := some o, key := some ek}],
             [("", ROOT_ID)])) ∧
    (∀ v, patchop.op = "replace" →
      patchop.value = some v → v.isScalarOrNull = true →
      patchToOpsGo origin opIndex inst patchop i [("", ROOT_ID)] =
        .ok ([{action := "set", obj := some o, key := some ek,
               value := patchop.value}], [("", ROOT_ID)])) := by
  have hsplit : splitOnChar '/' patchop.path =
      "" :: p ++ [intToString idx] := by
    rw [hpath]
    exact buildPath_split p (intToString idx) (sepFree_slash_intToString idx)
      hp
  have hlast : ((splitOnChar '/' patchop.path).getLast?).getD "" =
      intToString idx := by
    rw [hsplit]
    exact parts_getLast p (intToString idx)
  have hdrop : (splitOnChar '/' patchop.path).dropLast = "" :: p := by
    rw [hsplit]
    exact parts_dropLast p (intToString idx)
  have hresolve := resolveObjPath inst o p hres1 hres2
  constructor
  · intro hrem
    unfold patchToOpsGo
    dsimp only
    rw [patchToOpsAction_remove _ _ _ hrem]
    dsimp only
    rw [hdrop, hresolve]
    dsimp only
    rw [if_pos hty, hlast, parseIntJS_intToString]
    dsimp only
    rw [if_neg (by rw [hrem]; decide), hfe]
    dsimp only
    unfold patchToOpsFinish
    rw [if_neg (by decide), if_neg (by rw [hrem]; decide), List.nil_append]
  · intro v hrep hv hs
    unfold patchToOpsGo
    dsimp only
    rw [patchToOpsAction_scalar _ _ _ v (Or.inr hrep) hv hs]
    dsimp only
    rw [hdrop, hresolve]
    dsimp only
    rw [if_pos hty, hlast, parseIntJS_intToString]
    dsimp only
    rw [if_neg (by rw [hrep]; decide), hfe]
    dsimp only
    unfold patchToOpsFinish
    rw [if_neg (by decide), if_pos (Or.inr hrep), List.nil_append]

/-- `patchToOpsGo` on a scalar `add` patch op whose parent is a list: an
`ins` is synthesized after the anchor element, its elem taken from the
original op's `<actor>:<elem>` key, followed by the reifying `set`. -/
theorem patchToOpsGo_list_add (origin : Change) (opIndex : Nat)
    (inst : Instance) (patchop : PatchOp) (i : Nat) (o : ObjectId)
    (pk : String) (p : List String) (aIdx e : Int) (X : Op) (v : JsonValue)
    (hpath : patchop.path =
      "/" ++ joinChar '/' (p ++ [intToString (aIdx + 1)]))
    (hp : ∀ s ∈ p, sepFree '/' s)
    (hres1 : p = [] → o = ROOT_ID)
    (hres2 : p ≠ [] →
      getObjId inst.state (joinChar '/' ("" :: p)) = .ok (some o))
    (hty : getObjType inst.state (some o) = .list)
    (hadd : patchop.op = "add")
    (hv : patchop.value = some v) (hs : v.isScalarOrNull = true)
    (hfe : findElemOfIndex inst.state (some o) aIdx = .ok (some pk))
    (hoo : origin.ops.get? opIndex = some X)
    (hie : ((splitOnChar ':' (X.key.getD "")).get? 1).bind parseIntJS =
      some e)
    (he : e ≠ 0) :
    patchToOpsGo origin opIndex inst patchop i [("", ROOT_ID)] =
      .ok ([{action := "ins", obj := some o, key := some pk,
             elem := some e},
            {action := "set", obj := some o,
             key := some (origin.actor ++ ":" ++ intToString e),
             value := patchop.value}], [("", ROOT_ID)]) := by
  have hsplit : splitOnChar '/' patchop.path =
      "" :: p ++ [intToString (aIdx + 1)] := by
    rw [hpath]
    exact buildPath_split p (intToString (aIdx + 1))
      (sepFree_slash_intToString (aIdx + 1)) hp
  have hlast : ((splitOnChar '/' patchop.path).getLast?).getD "" =
      intToString (aIdx + 1) := by
    rw [hsplit]
    exact parts_getLast p (intToString (aIdx + 1))
  have hdrop : (splitOnChar '/' patchop.path).dropLast = "" :: p := by
    rw [hsplit]
    exact parts_dropLast p (intToString (aIdx + 1))
  have hresolve := resolveObjPath inst o p hres1 hres2
  unfold patchToOpsGo
  dsimp only
  rw [patchToOpsAction_scalar _ _ _ v (Or.inl hadd) hv hs]
  dsimp only
  rw [hdrop, hresolve]
  dsimp only
  rw [if_pos hty, hlast, parseIntJS_intToString]
  dsimp only
  rw [if_pos hadd]
  rw [show aIdx + 1 - 1 = aIdx from by ring, hfe]
  dsimp only
  rw [hoo]
  dsimp only
  rw [hie]
  dsimp only
  rw [if_pos he]
  unfold patchToOpsFinish
  rw [if_neg (by decide), if_pos (Or.inl hadd), List.nil_append,
    List.singleton_append]

/-- `opToPatch` of a `set` whose parent is a map: `add`/`replace` at the
key, decided by whether the stored value is `null`. -/
theorem opToPatch_set_map_eq (op : Op) (inst : Instance) (EC : ElemCache)
    (p : List String)
    (hact : op.action = "set")
    (hty : getObjType inst.state op.obj = .object)
    (hp : getPath inst.state op.obj = some p) :
    opToPatch op inst EC =
      .ok ([{ op := (if getMapValue inst.state op.obj op.key = some .vnull
                     then "add" else "replace"),
              path := "/" ++ joinChar '/' (p ++ [op.key.getD ""]),
              value := op.value }], EC) := by
  unfold opToPatch buildPath
  by_cases hmv : getMapValue inst.state op.obj op.key = some .vnull
  · rw [if_pos hmv]
    simp only [hact, hty, hmv, hp, Option.getD_some, objTypeObjectNeList,
      if_false]
  · rw [if_neg hmv]
    cases hv : getMapValue inst.state op.obj op.key with
    | none =>
      simp only [hact, hty, hv, hp, Option.getD_some, objTypeObjectNeList,
        if_false]
    | some w =>
      cases w
      all_goals first
        | exact absurd hv hmv
        | simp only [hact, hty, hv, hp, Option.getD_some,
            objTypeObjectNeList, if_false]

/-- `opToPatch` of a `del` whose parent is a map: `remove` at the key. -/
theorem opToPatch_del_map_eq (op : Op) (inst : Instance) (EC : ElemCache)
    (p : List String)
    (hact : op.action = "del")
    (hty : getObjType inst.state op.obj = .object)
    (hp : getPath inst.state op.obj = some p) :
    opToPatch op inst EC =
      .ok ([{ op := "remove",
              path := "/" ++ joinChar '/' (p ++ [op.key.getD ""]) }], EC) := by
  unfold opToPatch buildPath
  simp only [hact, hty, hp, Option.getD_some, objTypeObjectNeList, if_false,
    String.reduceEq]

/-- `opToPatch` of a `set` on a list element that is not in the element
cache: `replace` at the element's numeric index. -/
theorem opToPatch_set_list_eq (op : Op) (inst : Instance) (EC : ElemCache)
    (p : List String) (k : String) (idx : Int)
    (hact : op.action = "set")
    (hkey : op.key = some k)
    (hty : getObjType inst.state op.obj = .list)
    (hcache : assocLookup EC k = none)
    (hidx : findIndexOfElem inst.state op.obj k = .ok idx)
    (hp : getPath inst.state op.obj = some p) :
    opToPatch op inst EC =
      .ok ([{ op := "replace",
              path := "/" ++ joinChar '/' (p ++ [intToString idx]),
              value := op.value }], EC) := by
  unfold opToPatch buildPath
  have hkc : keyInCache (some k) EC = false := by
    simp [keyInCache, hcache]
  simp only [hact, hty, hkc, hkey, hcache, hidx, hp, Option.getD_some,
    Bool.false_eq_true, objTypeListEqList, if_true, if_false]

/-- `opToPatch` of a `del` on a list element that is not in the element
cache: `remove` at the element's numeric index. -/
theorem opToPatch_del_list_eq (op : Op) (inst : Instance) (EC : ElemCache)
    (p : List String) (k : String) (idx : Int)
    (hact : op.action = "del")
    (hkey : op.key = some k)
    (hty : getObjType inst.state op.obj = .list)
    (hcache : assocLookup EC k = none)
    (hidx : findIndexOfElem inst.state op.obj k = .ok idx)
    (hp : getPath inst.state op.obj = some p) :
    opToPatch op inst EC =
      .ok ([{ op := "remove",
              path := "/" ++ joinChar '/' (p ++ [intToString idx]) }],
           EC) := by
  unfold opToPatch buildPath
  simp only [hact, hty, hkey, hcache, hidx, hp, Option.getD_some,
    objTypeListEqList, if_true, String.reduceEq]

/-- `opToPatch` of a `set` reifying a cached insert: `add` at one past the
insert-after anchor's index, consuming the cache entry. -/
theorem opToPatch_set_cached_eq (op : Op) (inst : Instance) (EC : ElemCache)
    (p : List String) (k pk : String) (cached : Op) (idx : Int)
    (hact : op.action = "set")
    (hkey : op.key = some k)
    (hne : k ≠ "")
    (hty : getObjType inst.state op.obj = .list)
    (hcache : assocLookup EC k = some cached)
    (hck : cached.key = some pk)
    (hidx : findIndexOfElem inst.state op.obj pk = .ok idx)
    (hp : getPath inst.state op.obj = some p) :
    opToPatch op inst EC =
      .ok ([{ op := "add",
              path := "/" ++ joinChar '/' (p ++ [intToString (idx + 1)]),
              value := op.value }], assocErase EC k) := by
  unfold opToPatch buildPath
  have hkc : keyInCache (some k) EC = true := by
    simp [keyInCache, hne, hcache]
  simp only [hact, hty, hkc, hkey, hcache, hck, hidx, hp, Option.getD_some,
    objTypeListEqList, if_true]

/-- The round trip of C1: the patch produced from a single op is converted
back against the same shadow instance. -/
def roundTrip (X : Op) (inst : Instance) (EC : ElemCache) (origin : Change)
    (opIndex : Nat) : Except String (List Op) :=
  match opToPatch X inst EC with
  | .error e => .error e
  | .ok (patch, _) => patchToOps patch origin opIndex inst

/-- C1. Round trip `patchToOps ∘ opToPatch` of a single `set` or `del` op
`X` of change `origin` at `opIndex`, against the owning shadow instance and
element cache: on a map parent, and on a list parent overwriting or
deleting an existing element, the round trip returns exactly `[X]`; a `set`
reifying a cached insert returns the synthesized `ins` (with the elem
inflated from `X`'s `<actor>:<elem>` key) immediately followed by `X`
itself. -/
theorem roundTrip_set_del_spec :
    (∀ (X : Op) (inst : Instance) (EC : ElemCache) (origin : Change)
       (opIndex : Nat) (o : ObjectId) (k : String) (v : JsonValue)
       (p : List String),
      X.action = "set" → X.obj = some o → X.key = some k → X.elem = none →
      X.value = some v → v.isScalarOrNull = true →
      getObjType inst.state (some o) = .object →
      getPath inst.state (some o) = some p →
      sepFree '/' k → (∀ s ∈ p, sepFree '/' s) →
      (p = [] → o = ROOT_ID) →
      (p ≠ [] →
        getObjId inst.state (joinChar '/' ("" :: p)) = .ok (some o)) →
      roundTrip X inst EC origin opIndex = .ok [X]) ∧
    (∀ (X : Op) (inst : Instance) (EC : ElemCache) (origin : Change)
       (opIndex : Nat) (o : ObjectId) (k : String) (p : List String),
      X.action = "del" → X.obj = some o → X.key = some k → X.elem = none →
      X.value = none →
      getObjType inst.state (some o) = .object →
      getPath inst.state (some o) = some p →
      sepFree '/' k → (∀ s ∈ p, sepFree '/' s) →
      (p = [] → o = ROOT_ID) →
      (p ≠ [] →
        getObjId inst.state (joinChar '/' ("" :: p)) = .ok (some o)) →
      roundTrip X inst EC origin opIndex = .ok [X]) ∧
    (∀ (X : Op) (inst : Instance) (EC : ElemCache) (origin : Change)
       (opIndex : Nat) (o : ObjectId) (k : String) (v : JsonValue)
       (rec : ObjRec) (p : List String),
      X.action = "set" → X.obj = some o → X.key = some k → X.elem = none →
      X.value = some v → v.isScalarOrNull = true →
      getObjType inst.state (some o) = .list →
      assocLookup inst.state.byObject o = some rec →
      k ∈ rec.elemIds → k ≠ "_head" →
      assocLookup EC k = none →
      getPath inst.state (some o) = some p →
      (∀ s ∈ p, sepFree '/' s) →
      (p = [] → o = ROOT_ID) →
      (p ≠ [] →
        getObjId inst.state (joinChar '/' ("" :: p)) = .ok (some o)) →
      roundTrip X inst EC origin opIndex = .ok [X]) ∧
    (∀ (X : Op) (inst : Instance) (EC : ElemCache) (origin : Change)
       (opIndex : Nat) (o : ObjectId) (k : String) (rec : ObjRec)
       (p : List String),
      X.action = "del" → X.obj = some o → X.key = some k → X.elem = none →
      X.value = none →
      getObjType inst.state (some o) = .list →
      assocLookup inst.state.byObject o = some rec →
      k ∈ rec.elemIds → k ≠ "_head" →
      assocLookup EC k = none →
      getPath inst.state (some o) = some p →
      (∀ s ∈ p, sepFree '/' s) →
      (p = [] → o = ROOT_ID) →
      (p ≠ [] →
        getObjId inst.state (joinChar '/' ("" :: p)) = .ok (some o)) →
      roundTrip X inst EC origin opIndex = .ok [X]) ∧
    (∀ (X : Op) (inst : Instance) (EC : ElemCache) (origin : Change)
       (opIndex : Nat) (o : ObjectId) (k pk : String) (v : JsonValue)
       (e : Int) (cached : Op) (rec : ObjRec) (p : List String),
      X.action = "set" → X.obj = some o → X.key = some k → X.elem = none →
      X.value = some v → v.isScalarOrNull = true →
      getObjType inst.state (some o) = .list →
      assocLookup inst.state.byObject o = some rec →
      assocLookup EC k = some cached → k ≠ "" →
      cached.key = some pk →
      (pk = "_head" ∨ pk ∈ rec.elemIds) →
      getPath inst.state (some o) = some p →
      (∀ s ∈ p, sepFree '/' s) →
      (p = [] → o = ROOT_ID) →
      (p ≠ [] →
        getObjId inst.state (joinChar '/' ("" :: p)) = .ok (some o)) →
      origin.ops.get? opIndex = some X →
      k = origin.actor ++ ":" ++ intToString e →
      e ≠ 0 →
      sepFree ':' origin.actor →
      roundTrip X inst EC origin opIndex =
        .ok [{action := "ins", obj := some o, key := some pk,
              elem := some e}, X]) := by
  refine ⟨?_, ?_, ?_, ?_, ?_⟩
  · intro X inst EC origin opIndex o k v p hact hobj hkey helem hval hscal
      hty hgp hk hp hres1 hres2
    obtain ⟨Xa, Xo, Xk, Xe, Xv⟩ := X
    dsimp only at hact hobj hkey helem hval
    subst hact hobj hkey helem hval
    unfold roundTrip
    by_cases hmv : getMapValue inst.state (some o) (some k) =
      some JsonValue.vnull
    · rw [opToPatch_set_map_eq _ inst EC p rfl hty hgp, if_pos hmv]
      dsimp only
      unfold patchToOps
      simp only [patchToOpsAll, Option.getD_some]
      rw [(patchToOpsGo_map_parent origin opIndex inst
            { op := "add", path := "/" ++ joinChar '/' (p ++ [k]),
              value := some v } 0 o k p rfl hk hp hres1 hres2 hty).2 v
            (Or.inl rfl) rfl hscal]
      dsimp only
      rw [List.append_nil]
    · rw [opToPatch_set_map_eq _ inst EC p rfl hty hgp, if_neg hmv]
      dsimp only
      unfold patchToOps
      simp only [patchToOpsAll, Option.getD_some]
      rw [(patchToOpsGo_map_parent origin opIndex inst
            { op := "replace", path := "/" ++ joinChar '/' (p ++ [k]),
              value := some v } 0 o k p rfl hk hp hres1 hres2 hty).2 v
            (Or.inr rfl) rfl hscal]
      dsimp only
      rw [List.append_nil]
  · intro X inst EC origin opIndex o k p hact hobj hkey helem hval hty hgp
      hk hp hres1 hres2
    obtain ⟨Xa, Xo, Xk, Xe, Xv⟩ := X
    dsimp only at hact hobj hkey helem hval
    subst hact hobj hkey helem hval
    unfold roundTrip
    rw [opToPatch_del_map_eq _ inst EC p rfl hty hgp]
    dsimp only
    unfold patchToOps
    simp only [patchToOpsAll, Option.getD_some]
    rw [(patchToOpsGo_map_parent origin opIndex inst
          { op := "remove", path := "/" ++ joinChar '/' (p ++ [k]) }
          0 o k p rfl hk hp hres1 hres2 hty).1 rfl]
    dsimp only
    rw [List.append_nil]
  · intro X inst EC origin opIndex o k v rec p hact hobj hkey helem hval
      hscal hty hrec hmem hknh hcache hgp hp hres1 hres2
    obtain ⟨n, hji, hjk⟩ := jsIndexOf_jsKeyOf k rec.elemIds hmem
    have hidx : findIndexOfElem inst.state (some o) k = .ok (n : Int) := by
      unfold findIndexOfElem
      rw [if_neg hknh, show (some o).bind (assocLookup inst.state.byObject) =
        some rec from hrec]
      dsimp only
      rw [hji]
    have hfe : findElemOfIndex inst.state (some o) (n : Int) =
        .ok (some k) := by
      unfold findElemOfIndex
      rw [if_neg (by omega), show (some o).bind
        (assocLookup inst.state.byObject) = some rec from hrec]
      dsimp only
      rw [hjk]
    obtain ⟨Xa, Xo, Xk, Xe, Xv⟩ := X
    dsimp only at hact hobj hkey helem hval
    subst hact hobj hkey helem hval
    unfold roundTrip
    rw [opToPatch_set_list_eq _ inst EC p k (n : Int) rfl rfl hty hcache
      hidx hgp]
    dsimp only
    unfold patchToOps
    simp only [patchToOpsAll, Option.getD_some]
    rw [(patchToOpsGo_list_parent origin opIndex inst
          { op := "replace",
            path := "/" ++ joinChar '/' (p ++ [intToString (n : Int)]),
            value := some v } 0 o k p (n : Int) rfl hp hres1 hres2 hty
          hfe).2 v rfl rfl hscal]
    dsimp only
    rw [List.append_nil]
  · intro X inst EC origin opIndex o k rec p hact hobj hkey helem hval hty
      hrec hmem hknh hcache hgp hp hres1 hres2
    obtain ⟨n, hji, hjk⟩ := jsIndexOf_jsKeyOf k rec.elemIds hmem
    have hidx : findIndexOfElem inst.state (some o) k = .ok (n : Int) := by
      unfold findIndexOfElem
      rw [if_neg hknh, show (some o).bind (assocLookup inst.state.byObject) =
        some rec from hrec]
      dsimp only
      rw [hji]
    have hfe : findElemOfIndex inst.state (some o) (n : Int) =
        .ok (some k) := by
      unfold findElemOfIndex
      rw [if_neg (by omega), show (some o).bind
        (assocLookup inst.state.byObject) = some rec from hrec]
      dsimp only
      rw [hjk]
    obtain ⟨Xa, Xo, Xk, Xe, Xv⟩ := X
    dsimp only at hact hobj hkey helem hval
    subst hact hobj hkey helem hval
    unfold roundTrip
    rw [opToPatch_del_list_eq _ inst EC p k (n : Int) rfl rfl hty hcache
      hidx hgp]
    dsimp only
    unfold patchToOps
    simp only [patchToOpsAll, Option.getD_some]
    rw [(patchToOpsGo_list_parent origin opIndex inst
          { op := "remove",
            path := "/" ++ joinChar '/' (p ++ [intToString (n : Int)]) }
          0 o k p (n : Int) rfl hp hres1 hres2 hty hfe).1 rfl]
    dsimp only
    rw [List.append_nil]
  · intro X inst EC origin opIndex o k pk v e cached rec p hact hobj hkey
      helem hval hscal hty hrec hcache hne hck hanchor hgp hp hres1 hres2
      hoo hkform he hActor
    obtain ⟨aIdx, hidx, hfe⟩ : ∃ aIdx : Int,
        findIndexOfElem inst.state (some o) pk = .ok aIdx ∧
        findElemOfIndex inst.state (some o) aIdx = .ok (some pk) := by
      by_cases hh : pk = "_head"
      · refine ⟨-1, ?_, ?_⟩
        · unfold findIndexOfElem
          rw [if_pos hh]
        · unfold findElemOfIndex
          rw [if_pos rfl, hh]
      · have hmem : pk ∈ rec.elemIds := hanchor.resolve_left hh
        obtain ⟨n, hji, hjk⟩ := jsIndexOf_jsKeyOf pk rec.elemIds hmem
        refine ⟨(n : Int), ?_, ?_⟩
        · unfold findIndexOfElem
          rw [if_neg hh, show (some o).bind
            (assocLookup inst.state.byObject) = some rec from hrec]
          dsimp only
          rw [hji]
        · unfold findElemOfIndex
          rw [if_neg (by omega), show (some o).bind
            (assocLookup inst.state.byObject) = some rec from hrec]
          dsimp only
          rw [hjk]
    have hsplitk : splitOnChar ':' (origin.actor ++ ":" ++ intToString e) =
        [origin.actor, intToString e] :=
      splitOnChar_colon_pair origin.actor (intToString e) hActor
        (sepFree_colon_intToString e)
    have hie : ((splitOnChar ':'
        (origin.actor ++ ":" ++ intToString e)).get? 1).bind parseIntJS =
        some e := by
      rw [hsplitk]
      exact parseIntJS_intToString e
    obtain ⟨Xa, Xo, Xk, Xe, Xv⟩ := X
    dsimp only at hact hobj hkey helem hval
    subst hact hobj hkey helem hval
    subst hkform
    unfold roundTrip
    rw [opToPatch_set_cached_eq _ inst EC p _ pk cached aIdx rfl rfl hne hty
      hcache hck hidx hgp]
    dsimp only
    unfold patchToOps
    simp only [patchToOpsAll, Option.getD_some]
    rw [patchToOpsGo_list_add origin opIndex inst
      { op := "add",
        path := "/" ++ joinChar '/' (p ++ [intToString (aIdx + 1)]),
        value := some v } 0 o pk p aIdx e _ v rfl hp hres1 hres2 hty rfl
      rfl hscal hfe hoo hie he]
    dsimp only
    rw [List.append_nil]

/-- A `del` of the root-map key `k`, for the round-trip witness. -/
def demoDelMap : Op :=
  { action := "del", obj := some ROOT_ID, key := some "k" }

/-- A `del` of the existing list element `a:1`, for the round-trip
witness. -/
def demoDelListElem : Op :=
  { action := "del", obj := some "L1", key := some "a:1" }

/-- The originating change of the cached-insert round trip: its op 0 is
the reifying `set` itself. -/
def demoOriginIns : Change :=
  { actor := "a", seq := 1, deps := [], ops := [demoSetCached] }

/-- Witness for C1 at the concrete two-object state: map set, map del,
list overwrite, list delete, and cached insert. -/
theorem roundTrip_set_del_spec_witness :
    roundTrip demoSetNullKey demoInst [] demoOrigin 0 =
      .ok [demoSetNullKey] ∧
    roundTrip demoDelMap demoInst [] demoOrigin 0 = .ok [demoDelMap] ∧
    roundTrip demoSetListElem demoInst [] demoOrigin 0 =
      .ok [demoSetListElem] ∧
    roundTrip demoDelListElem demoInst [] demoOrigin 0 =
      .ok [demoDelListElem] ∧
    roundTrip demoSetCached demoInst [("a:2", demoInsOp)] demoOriginIns 0 =
      .ok [{action := "ins", obj := some "L1", key := some "a:1",
            elem := some 2}, demoSetCached] := by
  refine ⟨?_, ?_, ?_, ?_, ?_⟩
  · exact roundTrip_set_del_spec.1 demoSetNullKey demoInst [] demoOrigin 0
      ROOT_ID "k" (.vnum 3) [] rfl rfl rfl rfl rfl (by decide) (by decide)
      (by decide) (by decide) (by decide) (fun _ => rfl)
      (fun h => absurd rfl h)
  · exact roundTrip_set_del_spec.2.1 demoDelMap demoInst [] demoOrigin 0
      ROOT_ID "k" [] rfl rfl rfl rfl rfl (by decide) (by decide) (by decide)
      (by decide) (fun _ => rfl) (fun h => absurd rfl h)
  · exact roundTrip_set_del_spec.2.2.1 demoSetListElem demoInst [] demoOrigin
      0 "L1" "a:1" (.vstr "x") demoRecList ["items"] rfl rfl rfl rfl rfl
      (by decide) (by decide) (by decide) (by decide) (by decide) (by decide)
      (by decide) (by decide) (fun h => List.noConfusion h)
      (fun _ => by decide)
  · exact roundTrip_set_del_spec.2.2.2.1 demoDelListElem demoInst []
      demoOrigin 0 "L1" "a:1" demoRecList ["items"] rfl rfl rfl rfl rfl
      (by decide) (by decide) (by decide) (by decide) (by decide) (by decide)
      (by decide) (fun h => List.noConfusion h) (fun _ => by decide)
  · exact roundTrip_set_del_spec.2.2.2.2 demoSetCached demoInst
      [("a:2", demoInsOp)] demoOriginIns 0 "L1" "a:2" "a:1" (.vstr "y") 2
      demoInsOp demoRecList ["items"] rfl rfl rfl rfl rfl (by decide)
      (by decide) (by decide) (by decide) (by decide) (by decide)
      (Or.inr (by decide)) (by decide) (by decide)
      (fun h => List.noConfusion h) (fun _ => by decide) rfl (by decide)
      (by decide) (by decide)

/-! ### The sorter on canonical changes -/

theorem find?_append_none {α : Type} (p : α → Bool) :
    ∀ l1 l2 : List α, (∀ a ∈ l1, p a = false) →
      (l1 ++ l2).find? p = l2.find? p := by
  intro l1
  induction l1 with
  | nil => intro l2 _; rfl
  | cons a t ih =>
    intro l2 h
    have hne : ¬ p a = true := by simp [h a (List.mem_cons_self a t)]
    rw [List.cons_append, List.find?_cons_of_neg _ hne,
      ih l2 (fun b hb => h b (List.mem_cons_of_mem a hb))]

/-- An `ins` op never passes the reifier test (its action is neither `set`
nor `link`). -/
theorem reifies_ins_false (actor : String) (x o : Op)
    (h : o.action = "ins") : reifies actor x o = false := by
  simp [reifies, h]

theorem canonicalOps_ins_single (actor : String) (op : Op)
    (h : op.action = "ins") : canonicalOps actor [op] = false := by
  simp only [canonicalOps]
  rw [h]
  decide

theorem canonicalOps_ins_cons (actor : String) (op r : Op) (rest2 : List Op)
    (h : op.action = "ins") :
    canonicalOps actor (op :: r :: rest2) =
      (r.action == "set" && reifies actor op r &&
       canonicalOps actor rest2) := by
  simp only [canonicalOps]
  rw [if_pos (by simp [h])]

theorem canonicalOps_plain_cons (actor : String) (op : Op) (rest : List Op)
    (h : ¬ op.action = "ins") :
    canonicalOps actor (op :: rest) =
      (!(op.action == "makeList" || op.action == "makeMap" ||
         op.action == "makeTable" || op.action == "makeText") &&
       canonicalOps actor rest) := by
  cases rest with
  | nil =>
    simp only [canonicalOps]
    rw [show (op.action == "ins") = false from by simp [h]]
    simp
  | cons r rest2 =>
    simp only [canonicalOps]
    rw [if_neg (by simp only [beq_iff_eq]; exact h)]

/-- In a canonical op list every `ins` has at least one reifier (its
designated successor). -/
theorem canonical_countP_pos (actor : String) :
    ∀ l : List Op, canonicalOps actor l = true →
      ∀ x ∈ l, x.action = "ins" → 1 ≤ l.countP (reifies actor x) := by
  intro l
  induction l with
  | nil => intro _ x hx; cases hx
  | cons op rest ih =>
    intro hcan x hx hxins
    rw [List.mem_cons] at hx
    by_cases hins : op.action = "ins"
    · cases rest with
      | nil =>
        rw [canonicalOps_ins_single actor op hins] at hcan
        exact Bool.noConfusion hcan
      | cons r rest2 =>
        rw [canonicalOps_ins_cons actor op r rest2 hins] at hcan
        simp only [Bool.and_eq_true, beq_iff_eq] at hcan
        obtain ⟨⟨hr1, hr2⟩, hcan2⟩ := hcan
        have hcanr : canonicalOps actor (r :: rest2) = true := by
          rw [canonicalOps_plain_cons actor r rest2 (by rw [hr1]; decide),
            hr1, hcan2]
          decide
        rcases hx with rfl | hx
        · exact List.countP_pos_iff.mpr ⟨r, by simp, hr2⟩
        · have := ih hcanr x hx hxins
          rw [List.countP_cons]
          omega
    · rcases hx with rfl | hx
      · exact absurd hxins hins
      · cases rest with
        | nil => cases hx
        | cons r rest2 =>
          rw [canonicalOps_plain_cons actor op (r :: rest2) hins] at hcan
          simp only [Bool.and_eq_true] at hcan
          have := ih hcan.2 x hx hxins
          rw [List.countP_cons]
          omega

/-- One unrolling of the sorter loop. -/
theorem sortOpsGo_cons (actor : String) (fuel : Nat) (pre sorted : List Op)
    (op : Op) (rest : List Op) :
    sortOpsGo actor (fuel + 1) pre (op :: rest) sorted =
      match sortStepIns actor op (pre ++ [op]) rest (sorted ++ [op]) with
      | .error e => .error e
      | .ok (pre1, rest1, sorted1, d1) =>
        match sortStepMake op pre1 rest1 sorted1 with
        | .error e => .error e
        | .ok (pre2, rest2, sorted2, d2) =>
          sortOpsGo actor fuel pre2 (rest2.drop (d1 + d2)) sorted2 := rfl

theorem sortStepIns_skip (actor : String) (op : Op)
    (pre rest sorted : List Op) (h : ¬ op.action = "ins") :
    sortStepIns actor op pre rest sorted = .ok (pre, rest, sorted, 0) := by
  unfold sortStepIns
  rw [if_neg h]

theorem sortStepMake_skip (op : Op) (pre rest sorted : List Op)
    (h : ¬(op.action = "makeList" ∨ op.action = "makeMap" ∨
           op.action = "makeTable" ∨ op.action = "makeText")) :
    sortStepMake op pre rest sorted = .ok (pre, rest, sorted, 0) := by
  unfold sortStepMake
  rw [if_neg h]

/-- The `ins` branch on a canonical head: the reifying `set` is the
immediate successor, found in the unyielded part, so it is spliced out of
the suffix (no iterator skip) and appended. -/
theorem sortStepIns_canonical (actor : String) (op r : Op)
    (pre rest2 sorted : List Op)
    (hins : op.action = "ins")
    (hr1 : r.action = "set")
    (hr2 : reifies actor op r = true)
    (hpre : ∀ o ∈ pre, reifies actor op o = false) :
    sortStepIns actor op (pre ++ [op]) (r :: rest2) (sorted ++ [op]) =
      .ok (pre ++ [op], rest2, (sorted ++ [op]) ++ [r], 0) := by
  unfold sortStepIns
  rw [if_pos hins]
  have hall : ∀ a ∈ pre ++ [op], reifies actor op a = false := by
    intro a ha
    rcases List.mem_append.mp ha with h | h
    · exact hpre a h
    · rw [List.mem_singleton] at h
      rw [h]
      exact reifies_ins_false actor op op hins
  have hfind : ((pre ++ [op]) ++ (r :: rest2)).find? (reifies actor op) =
      some r := by
    rw [find?_append_none (reifies actor op) (pre ++ [op]) (r :: rest2) hall]
    exact List.find?_cons_of_pos _ hr2
  rw [hfind]
  dsimp only
  rw [if_pos hr1]
  have hnot : r ∉ pre ++ [op] := by
    intro hmem
    rcases List.mem_append.mp hmem with h | h
    · rw [hpre r h] at hr2
      exact Bool.noConfusion hr2
    · rw [List.mem_singleton] at h
      rw [h] at hr1
      rw [hins] at hr1
      exact absurd hr1 (by decide)
  unfold spliceSplit
  rw [if_neg hnot]
  dsimp only
  rw [List.erase_cons_head, if_neg (by decide)]

/-- On a canonical suffix whose `ins` reifiers are unique in the suffix and
absent from the yielded prefix, the sorter loop is the identity. -/
theorem sortOpsGo_canonical (actor : String) :
    ∀ (fuel : Nat) (suf pre sorted : List Op),
      suf.length ≤ fuel →
      canonicalOps actor suf = true →
      (∀ x ∈ suf, x.action = "ins" →
        (∀ o ∈ pre, reifies actor x o = false) ∧
        suf.countP (reifies actor x) = 1) →
      sortOpsGo actor fuel pre suf sorted = .ok (sorted ++ suf) := by
  intro fuel
  induction fuel with
  | zero =>
    intro suf pre sorted hlen _ _
    have hs : suf = [] := List.length_eq_zero.mp (Nat.le_zero.mp hlen)
    subst hs
    show Except.ok sorted = _
    rw [List.append_nil]
  | succ fuel ih =>
    intro suf pre sorted hlen hcan hinv
    cases suf with
    | nil =>
      show Except.ok sorted = _
      rw [List.append_nil]
    | cons op rest =>
      by_cases hins : op.action = "ins"
      · cases rest with
        | nil =>
          rw [canonicalOps_ins_single actor op hins] at hcan
          exact Bool.noConfusion hcan
        | cons r rest2 =>
          rw [canonicalOps_ins_cons actor op r rest2 hins] at hcan
          simp only [Bool.and_eq_true, beq_iff_eq] at hcan
          obtain ⟨⟨hr1, hr2⟩, hcan2⟩ := hcan
          have hpre0 : ∀ o ∈ pre, reifies actor op o = false :=
            (hinv op (by simp) hins).1
          rw [sortOpsGo_cons,
            sortStepIns_canonical actor op r pre rest2 sorted hins hr1 hr2
              hpre0]
          dsimp only
          rw [sortStepMake_skip op (pre ++ [op]) rest2
            ((sorted ++ [op]) ++ [r]) (by rw [hins]; decide)]
          dsimp only
          rw [show (0 + 0 : Nat) = 0 from rfl, List.drop_zero]
          have hinv2 : ∀ x ∈ rest2, x.action = "ins" →
              (∀ o ∈ pre ++ [op], reifies actor x o = false) ∧
              rest2.countP (reifies actor x) = 1 := by
            intro x hx hxins
            obtain ⟨hp1, hc1⟩ := hinv x (by simp [hx]) hxins
            have hpos : 1 ≤ rest2.countP (reifies actor x) :=
              canonical_countP_pos actor rest2 hcan2 x hx hxins
            rw [List.countP_cons, List.countP_cons] at hc1
            constructor
            · intro o ho
              rcases List.mem_append.mp ho with h | h
              · exact hp1 o h
              · rw [List.mem_singleton] at h
                rw [h]
                exact reifies_ins_false actor x op hins
            · by_cases hrr : reifies actor x r = true
              · exfalso
                rw [if_pos hrr] at hc1
                by_cases hoo2 : reifies actor x op = true
                · rw [if_pos hoo2] at hc1
                  omega
                · rw [if_neg hoo2] at hc1
                  omega
              · rw [if_neg hrr] at hc1
                by_cases hoo2 : reifies actor x op = true
                · exfalso
                  rw [if_pos hoo2] at hc1
                  omega
                · rw [if_neg hoo2] at hc1
                  omega
          rw [ih rest2 (pre ++ [op]) ((sorted ++ [op]) ++ [r])
            (by simp only [List.length_cons] at hlen ⊢; omega) hcan2 hinv2]
          simp
      · have hsplit : ((op.action == "makeList" || op.action == "makeMap" ||
            op.action == "makeTable" || op.action == "makeText") = false) ∧
            canonicalOps actor rest = true := by
          cases rest with
          | nil =>
            simp only [canonicalOps, Bool.and_eq_true, Bool.not_eq_true']
              at hcan
            exact ⟨hcan.2, rfl⟩
          | cons r rest2 =>
            rw [canonicalOps_plain_cons actor op (r :: rest2) hins] at hcan
            simp only [Bool.and_eq_true, Bool.not_eq_true'] at hcan
            exact ⟨hcan.1, hcan.2⟩
        obtain ⟨hb, hcanr⟩ := hsplit
        have hmk : ¬(op.action = "makeList" ∨ op.action = "makeMap" ∨
            op.action = "makeTable" ∨ op.action = "makeText") := by
          simp only [Bool.or_eq_false_iff, beq_eq_false_iff_ne, ne_eq] at hb
          rintro (h | h | h | h)
          exacts [hb.1.1.1 h, hb.1.1.2 h, hb.1.2 h, hb.2 h]
        rw [sortOpsGo_cons, sortStepIns_skip actor op (pre ++ [op]) rest
          (sorted ++ [op]) hins]
        dsimp only
        rw [sortStepMake_skip op (pre ++ [op]) rest (sorted ++ [op]) hmk]
        dsimp only
        rw [show (0 + 0 : Nat) = 0 from rfl, List.drop_zero]
        have hinv2 : ∀ x ∈ rest, x.action = "ins" →
            (∀ o ∈ pre ++ [op], reifies actor x o = false) ∧
            rest.countP (reifies actor x) = 1 := by
          intro x hx hxins
          obtain ⟨hp1, hc1⟩ := hinv x (by simp [hx]) hxins
          have hpos : 1 ≤ rest.countP (reifies actor x) :=
            canonical_countP_pos actor rest hcanr x hx hxins
          rw [List.countP_cons] at hc1
          constructor
          · intro o ho
            rcases List.mem_append.mp ho with h | h
            · exact hp1 o h
            · rw [List.mem_singleton] at h
              rw [h]
              by_cases hpo : reifies actor x op = true
              · exfalso
                rw [if_pos hpo] at hc1
                omega
              · exact Bool.eq_false_iff.mpr hpo
          · by_cases hpo : reifies actor x op = true
            · exfalso
              rw [if_pos hpo] at hc1
              omega
            · rw [if_neg hpo] at hc1
              omega
        rw [ih rest (pre ++ [op]) (sorted ++ [op])
          (by simp only [List.length_cons] at hlen ⊢; omega) hcanr hinv2]
        simp

/-- C7 (amended). On canonical changes — every `ins` immediately followed
by its reifying `set`, that reifier unique in the change, and no `make*`
ops — `sortOps` returns the change unchanged (hence a permutation in which
every `ins` is immediately followed by its reifier); and when the leading
op is an `ins` with no reifying op anywhere in the change, `sortOps`
throws. -/
theorem sortOps_canonical_spec :
    (∀ change : Change,
      canonicalOps change.actor change.ops = true →
      (∀ x ∈ change.ops, x.action = "ins" →
        change.ops.countP (reifies change.actor x) = 1) →
      sortOps change = .ok change) ∧
    (∀ (change : Change) (x : Op) (rest : List Op),
      change.ops = x :: rest →
      x.action = "ins" →
      (∀ o ∈ change.ops, reifies change.actor x o = false) →
      sortOps change =
        .error "expected to find a reifying op corresponding to ins op") := by
  constructor
  · intro change hcan hcount
    unfold sortOps
    have hinv : ∀ x ∈ change.ops, x.action = "ins" →
        (∀ o ∈ ([] : List Op), reifies change.actor x o = false) ∧
        change.ops.countP (reifies change.actor x) = 1 := by
      intro x hx hxins
      exact ⟨fun o ho => absurd ho (List.not_mem_nil o), hcount x hx hxins⟩
    rw [sortOpsGo_canonical change.actor (change.ops.length + 1)
      change.ops [] [] (by omega) hcan hinv]
    dsimp only
    rw [List.nil_append]
  · intro change x rest hops hxins hall
    unfold sortOps
    rw [hops]
    rw [sortOpsGo_cons]
    have hstep : sortStepIns change.actor x ([] ++ [x]) rest ([] ++ [x]) =
        .error "expected to find a reifying op corresponding to ins op" := by
      unfold sortStepIns
      rw [if_pos hxins]
      have hfind : (([] ++ [x]) ++ rest).find? (reifies change.actor x) =
          none := by
        rw [List.find?_eq_none]
        intro a ha
        have ha' : a ∈ change.ops := by
          rw [hops]
          simpa using ha
        rw [hall a ha']
        exact Bool.noConfusion
      rw [hfind]
    rw [hstep]

/-- The reifying `set` of the C7 counterexample, placed before its `ins`. -/
def demoSortS1 : Op :=
  { action := "set", obj := some "L1", key := some "a:1",
    value := some (.vstr "x") }

/-- The `ins` reified by `demoSortS1`. -/
def demoSortIns1 : Op :=
  { action := "ins", obj := some "L1", key := some "_head", elem := some 1 }

/-- An `ins` with no reifying op anywhere. -/
def demoSortIns2 : Op :=
  { action := "ins", obj := some "L1", key := some "a:1", elem := some 2 }

/-- A change whose reifying `set` precedes its `ins`, followed by an
unreified `ins`. -/
def demoChangeBad : Change :=
  { actor := "a", seq := 1, deps := [],
    ops := [demoSortS1, demoSortIns1, demoSortIns2] }

/-- Counterexample to C7 as stated: on `[set, ins₁, ins₂]`, where the `set`
reifies `ins₁` and `ins₂` has no reifier, the sorter appends the already
yielded `set` again — the output is not a permutation of the input — and,
because the splice out of the yielded prefix makes the live iterator skip
`ins₂`, it returns successfully even though `ins₂` has no reifying op. -/
theorem sortOps_duplicates_and_misses_error :
    sortOps demoChangeBad =
      .ok { actor := "a", seq := 1, deps := [],
            ops := [demoSortS1, demoSortIns1, demoSortS1] } ∧
    ¬ List.Perm [demoSortS1, demoSortIns1, demoSortS1] demoChangeBad.ops ∧
    demoSortIns2 ∈ demoChangeBad.ops ∧
    demoSortIns2.action = "ins" ∧
    (∀ o ∈ demoChangeBad.ops,
      reifies demoChangeBad.actor demoSortIns2 o = false) := by
  refine ⟨by decide, ?_, by decide, by decide, by decide⟩
  intro h
  exact absurd (h.count_eq demoSortIns2) (by decide)

/-- A map-level `set` that reifies nothing. -/
def demoSortPlain : Op :=
  { action := "set", obj := some ROOT_ID, key := some "title",
    value := some (.vstr "t") }

/-- A canonical change: a plain `set`, then an `ins` immediately followed
by its reifying `set`. -/
def demoChangeGood : Change :=
  { actor := "a", seq := 1, deps := [],
    ops := [demoSortPlain, demoSortIns1, demoSortS1] }

/-- A change whose only op is an unreified `ins`. -/
def demoChangeNoReifier : Change :=
  { actor := "a", seq := 1, deps := [], ops := [demoSortIns2] }

/-- Witness for the amended C7: the canonical change is returned unchanged,
and the leading unreified `ins` throws. -/
theorem sortOps_canonical_spec_witness :
    sortOps demoChangeGood = .ok demoChangeGood ∧
    sortOps demoChangeNoReifier =
      .error "expected to find a reifying op corresponding to ins op" :=
  ⟨sortOps_canonical_spec.1 demoChangeGood (by decide) (by decide),
   sortOps_canonical_spec.2 demoChangeNoReifier demoSortIns2 [] rfl
     (by decide) (by decide)⟩

end Cambriamerge
